import Mathlib

/-!
Verification of the bambu-lan-viewer backend (Rust) against its natural-language
specification.  Every definition in this file is a shallow embedding of a function
from `src/backend/server/src`, translated from the Rust source: machine integers
are modelled as `Nat` with explicit `% 2^w` (or saturation) where the source uses
wrapping or saturating arithmetic, byte buffers are `List Nat`, Rust strings are
`List Char` or `String`, and `f64` configuration values whose uses in the verified
claims are exact are modelled as `Rat`.
-/

namespace BambuLan

/-- 2^32, the modulus of Rust `u32` arithmetic. -/
def U32MOD : Nat := 4294967296

/-- 2^64, the modulus of Rust `u64` arithmetic. -/
def U64MOD : Nat := 18446744073709551616

/-- Largest `usize`/`u64` value (the targets are 64-bit). -/
def USIZEMAX : Nat := 18446744073709551615

/-- Rust `u32::wrapping_sub` on values represented as `Nat`. -/
def wrappingSub32 (a b : Nat) : Nat :=
  (a % U32MOD + (U32MOD - b % U32MOD)) % U32MOD

/-- Rust `u32::saturating_add` on values represented as `Nat`. -/
def satAdd32 (a b : Nat) : Nat := min (a + b) (U32MOD - 1)

/-- Rust `u64::saturating_add` on values represented as `Nat`. -/
def satAdd64 (a b : Nat) : Nat := min (a + b) (U64MOD - 1)

/-! ## RTP→PTS mapper, from `src/backend/server/src/rtsp/time.rs` -/

/-- State of `RtpTimeMapper` (`time.rs`): the optional first RTP timestamp. -/
structure RtpTimeMapper where
  first_timestamp : Option Nat
  deriving Repr, DecidableEq

/-- `RtpTimeMapper::new`. -/
def RtpTimeMapper.new : RtpTimeMapper := { first_timestamp := none }

/-- `RtpTimeMapper::pts90k` (`time.rs` lines 13-20): on the first call the
argument is recorded as base; every call returns `t.wrapping_sub(base) as u64`. -/
def RtpTimeMapper.pts90k (m : RtpTimeMapper) (rtp_timestamp : Nat) :
    Nat × RtpTimeMapper :=
  let m' := if m.first_timestamp.isNone
    then { first_timestamp := some rtp_timestamp }
    else m
  let base := m'.first_timestamp.getD rtp_timestamp
  (wrappingSub32 rtp_timestamp base, m')

/-- Feed a list of RTP timestamps through the mapper, collecting the PTS values. -/
def runMapper (m : RtpTimeMapper) : List Nat → List Nat × RtpTimeMapper
  | [] => ([], m)
  | t :: ts =>
    let step := m.pts90k t
    let rest := runMapper step.2 ts
    (step.1 :: rest.1, rest.2)

theorem wrappingSub32_self (t : Nat) : wrappingSub32 t t = 0 := by
  unfold wrappingSub32 U32MOD
  omega

theorem runMapper_some (b : Nat) (ts : List Nat) :
    runMapper { first_timestamp := some b } ts =
      (ts.map (fun t => wrappingSub32 t b), { first_timestamp := some b }) := by
  induction ts with
  | nil => rfl
  | cons t ts ih => simp [runMapper, RtpTimeMapper.pts90k, ih]

/-- C7: the first call to `pts90k` records its argument as base (and returns 0,
since `t.wrapping_sub(t) = 0`); every subsequent call returns
`t.wrapping_sub(base)`; in particular base `0xFFFF_FF00` followed by timestamp
`0x0000_0010` yields PTS `0x110`. -/
theorem rtpTimeMapper_wrapping :
    (∀ (t0 : Nat) (ts : List Nat),
      runMapper RtpTimeMapper.new (t0 :: ts) =
        (0 :: ts.map (fun t => wrappingSub32 t t0),
          { first_timestamp := some t0 })) ∧
    runMapper RtpTimeMapper.new [0xFFFFFF00, 0x00000010] =
      ([0, 0x110], { first_timestamp := some 0xFFFFFF00 }) := by
  constructor
  · intro t0 ts
    simp [runMapper, RtpTimeMapper.new, RtpTimeMapper.pts90k, runMapper_some,
      wrappingSub32_self]
  · decide

/-! ## HTTP Range header parsing, from `src/backend/server/src/http.rs` -/

/-- Strip the given leading characters, `str::strip_prefix`-style. -/
def dropLeading : List Char → List Char → Option (List Char)
  | [], s => some s
  | _, [] => none
  | p :: ps, c :: cs => if c = p then dropLeading ps cs else none

/-- `str::splitn(2, sep)` followed by two `next()?` calls: splits at the first
occurrence of `sep`, failing when `sep` does not occur. -/
def splitOnce (sep : Char) : List Char → Option (List Char × List Char)
  | [] => none
  | c :: rest =>
    if c = sep then some ([], rest)
    else (splitOnce sep rest).map (fun p => (c :: p.1, p.2))

/-- `str::parse::<usize>()`: optional leading `+`, then at least one ASCII digit,
value within `usize` range. -/
def parseUsize (s : List Char) : Option Nat :=
  let t := match s with
    | '+' :: rest => rest
    | other => other
  if t = [] then none
  else if t.all (fun c => c.isDigit) then
    let v := t.foldl (fun acc c => acc * 10 + (c.toNat - '0'.toNat)) 0
    if v ≤ USIZEMAX then some v else none
  else none

/-- `parse_range` (`http.rs` lines 425-457).  `Nat` subtraction coincides with
the source's `saturating_sub`. -/
def parseRange (range : List Char) (len : Nat) : Option (Nat × Nat) :=
  match dropLeading "bytes=".toList range with
  | none => none
  | some rest =>
    match splitOnce '-' rest with
    | none => none
    | some (startPart, endPart) =>
      if startPart = [] then
        match parseUsize endPart with
        | none => none
        | some suffix =>
          if suffix = 0 ∨ len = 0 then none
          else some (len - suffix, len - 1)
      else
        match parseUsize startPart with
        | none => none
        | some start =>
          if len ≤ start then none
          else if endPart = [] then some (start, len - 1)
          else
            match parseUsize endPart with
            | none => none
            | some parsedEnd =>
              if parsedEnd < start then none
              else some (start, min parsedEnd (len - 1))

/-- C10: whenever `parse_range` succeeds, the returned range satisfies
`start ≤ end < len`, so the 206 body slice `bytes[start..=end]` in `get_segment`
is in bounds; any request against a zero-length file and the suffix range
`bytes=-0` yield `None`. -/
theorem parseRange_in_bounds :
    (∀ (r : List Char) (len s e : Nat),
        parseRange r len = some (s, e) → s ≤ e ∧ e < len) ∧
    (∀ r : List Char, parseRange r 0 = none) ∧
    (∀ len : Nat, parseRange "bytes=-0".toList len = none) := by
  refine ⟨?_, ?_, ?_⟩
  · intro r len s e h
    unfold parseRange at h
    repeat' split at h
    all_goals first
      | (simp only [Option.some.injEq, Prod.mk.injEq] at h; omega)
      | exact absurd h (by simp)
  · intro r
    unfold parseRange
    repeat' split
    all_goals first | rfl | omega
  · intro len
    have h1 : dropLeading "bytes=".toList "bytes=-0".toList = some ['-', '0'] := by
      decide
    have h2 : splitOnce '-' ['-', '0'] = some ([], ['0']) := by decide
    have h3 : parseUsize ['0'] = some 0 := by decide
    unfold parseRange
    rw [h1]
    simp only [h2, h3]
    simp

theorem parseRange_in_bounds_witness :
    parseRange "bytes=2-5".toList 10 = some (2, 5) ∧ 2 ≤ 5 ∧ 5 < 10 :=
  ⟨by decide, parseRange_in_bounds.1 "bytes=2-5".toList 10 2 5 (by decide)⟩

/-! ## RTSP wire stream events, from `src/backend/server/src/rtsp/parser.rs`

Bytes are `List Nat`; Rust string operations on the header text (which the
source obtains via `String::from_utf8_lossy`) are modelled byte-wise through an
ASCII-exact lossy decoding. -/

/-- Generic bounded integer parse, `str::parse::<uN>()`: optional leading `+`,
at least one ASCII digit, value within range. -/
def parseNatLe (maxVal : Nat) (s : List Char) : Option Nat :=
  let t := match s with
    | '+' :: rest => rest
    | other => other
  if t = [] then none
  else if t.all (fun c => c.isDigit) then
    let v := t.foldl (fun acc c => acc * 10 + (c.toNat - '0'.toNat)) 0
    if v ≤ maxVal then some v else none
  else none

/-- `str::parse::<u16>()`. -/
def parseU16 (s : List Char) : Option Nat := parseNatLe 65535 s

/-- `str::parse::<u64>()`. -/
def parseU64 (s : List Char) : Option Nat := parseNatLe USIZEMAX s

/-- `str::parse::<u32>()`. -/
def parseU32 (s : List Char) : Option Nat := parseNatLe (U32MOD - 1) s

/-- `String::from_utf8_lossy`, modelled byte-wise: exact on ASCII input (bytes
≥ 0x80 become the replacement character; the source's decoder additionally
merges valid multi-byte sequences, which no verified claim exercises). -/
def bytesToCharsLossy (bs : List Nat) : List Char :=
  bs.map (fun b => if b < 128 then Char.ofNat b else '�')

/-- `str::trim`, restricted to ASCII whitespace. -/
def trimWs (s : List Char) : List Char :=
  (((s.dropWhile Char.isWhitespace).reverse).dropWhile Char.isWhitespace).reverse

/-- `str::to_ascii_lowercase` on a char list. -/
def toLowerAscii (s : List Char) : List Char := s.map Char.toLower

/-- `str::splitn(n, sep)`: at most `n` pieces, the last piece keeps the rest. -/
def splitN (n : Nat) (sep : Char) (s : List Char) : List (List Char) :=
  match n with
  | 0 => []
  | 1 => [s]
  | n + 2 =>
    match splitOnce sep s with
    | none => [s]
    | some (a, rest) => a :: splitN (n + 1) sep rest

/-- `str::split("\r\n")`. -/
def splitCrlf : List Char → List (List Char)
  | [] => [[]]
  | '\r' :: '\n' :: rest => [] :: splitCrlf rest
  | c :: rest =>
    match splitCrlf rest with
    | [] => [[c]]
    | p :: ps => (c :: p) :: ps

/-- `HashMap::insert` on an association-list model (overwrite on key hit). -/
def hmInsert (m : List (List Char × List Char)) (k v : List Char) :
    List (List Char × List Char) :=
  if m.any (fun p => p.1 = k) then
    m.map (fun p => if p.1 = k then (k, v) else p)
  else m ++ [(k, v)]

/-- `HashMap::get`. -/
def hmGet (m : List (List Char × List Char)) (k : List Char) :
    Option (List Char) :=
  (m.find? (fun p => p.1 = k)).map (·.2)

/-- `RtspResponse` (`parser.rs` lines 9-15). -/
structure RtspResponse where
  status_code : Nat
  reason_phrase : List Char
  headers : List (List Char × List Char)
  body : List Nat
  deriving Repr, DecidableEq

/-- `RtspEvent` (`parser.rs` lines 3-7). -/
inductive RtspEvent where
  | response (r : RtspResponse)
  | interleaved (channel : Nat) (payload : List Nat)
  deriving Repr, DecidableEq

/-- `find_double_crlf` (`parser.rs` lines 125-127): position of the first
`\r\n\r\n` window. -/
def findDoubleCrlf : List Nat → Option Nat
  | a :: b :: c :: d :: rest =>
    if a = 13 ∧ b = 10 ∧ c = 13 ∧ d = 10 then some 0
    else (findDoubleCrlf (b :: c :: d :: rest)).map (· + 1)
  | _ => none

/-- `RtspStreamParser::extract_interleaved` (`parser.rs` lines 66-81), returning
the event together with the drained buffer. -/
def extractInterleaved : List Nat → Option ((Nat × List Nat) × List Nat)
  | b0 :: b1 :: b2 :: b3 :: rest =>
    if b0 = 0x24 then
      let length := (b2 <<< 8) ||| b3
      if rest.length < length then none
      else some ((b1, rest.take length), rest.drop length)
    else none
  | _ => none

/-- Status-line portion of `extract_response`: the iterator steps
`lines.next()?`, `splitn(3, ' ')`, `next()?`, `next()?.parse().ok()?`,
`next().unwrap_or("")`.  Returns (status code, reason, header lines). -/
def parseStatusLine (lines : List (List Char)) :
    Option (Nat × List Char × List (List Char)) :=
  match lines with
  | [] => none
  | status_line :: header_lines =>
    match splitN 3 ' ' status_line with
    | [] => none
    | _proto :: statusParts =>
      match statusParts with
      | [] => none
      | codeStr :: restParts =>
        match parseU16 codeStr with
        | none => none
        | some status_code =>
          some (status_code, (restParts.headD []), header_lines)

/-- Filtered header lines of a buffered frame prefix. -/
def headerLines (header_bytes : List Nat) : List (List Char) :=
  (splitCrlf (bytesToCharsLossy header_bytes)).filter (fun l => l ≠ [])

/-- `RtspStreamParser::extract_response` (`parser.rs` lines 83-123), returning
the response together with the drained buffer.  `None` leaves the buffer
untouched, exactly as in the source. -/
def extractResponse (buffer : List Nat) : Option (RtspResponse × List Nat) :=
  match findDoubleCrlf buffer with
  | none => none
  | some header_end =>
    match parseStatusLine (headerLines (buffer.take header_end)) with
    | none => none
    | some (status_code, reason_phrase, header_lines) =>
      let headers := header_lines.foldl (fun m line =>
        let parts := splitN 2 ':' line
        let key := toLowerAscii (trimWs (parts.headD []))
        let value := trimWs ((parts.drop 1).headD [])
        hmInsert m key value) []
      let content_length := match hmGet headers "content-length".toList with
        | some v => (parseUsize v).getD 0
        | none => 0
      let total_length := header_end + 4 + content_length
      if buffer.length < total_length then none
      else
        let body := (buffer.take total_length).drop (header_end + 4)
        some (⟨status_code, reason_phrase, headers, body⟩,
          buffer.drop total_length)

theorem extractInterleaved_shrinks {buffer : List Nat}
    {ev : Nat × List Nat} {rest : List Nat}
    (h : extractInterleaved buffer = some (ev, rest)) :
    rest.length < buffer.length := by
  match buffer with
  | [] | [_] | [_, _] | [_, _, _] => simp [extractInterleaved] at h
  | b0 :: b1 :: b2 :: b3 :: tail =>
    simp only [extractInterleaved] at h
    split at h
    · split at h
      · exact absurd h (by simp)
      · simp only [Option.some.injEq, Prod.mk.injEq] at h
        obtain ⟨-, h2⟩ := h
        subst h2
        simp only [List.length_drop, List.length_cons]
        omega
    · exact absurd h (by simp)

theorem extractResponse_shrinks {buffer : List Nat}
    {resp : RtspResponse} {rest : List Nat}
    (h : extractResponse buffer = some (resp, rest)) :
    rest.length < buffer.length := by
  unfold extractResponse at h
  repeat' first | split at h | dsimp only at h
  all_goals first
    | (simp only [Option.some.injEq, Prod.mk.injEq] at h
       obtain ⟨-, h2⟩ := h
       subst h2
       simp only [List.length_drop]
       omega)
    | exact absurd h (by simp)

/-- The drain loop of `RtspStreamParser::append` (`parser.rs` lines 42-61). -/
def appendLoop (buffer : List Nat) : List RtspEvent × List Nat :=
  if buffer = [] then ([], buffer)
  else if buffer.head? = some 0x24 then
    match hext : extractInterleaved buffer with
    | some (ev, rest) =>
      let r := appendLoop rest
      (RtspEvent.interleaved ev.1 ev.2 :: r.1, r.2)
    | none => ([], buffer)
  else
    match hext : extractResponse buffer with
    | some (resp, rest) =>
      let r := appendLoop rest
      (RtspEvent.response resp :: r.1, r.2)
    | none => ([], buffer)
  termination_by buffer.length
  decreasing_by
  · exact extractInterleaved_shrinks hext
  · exact extractResponse_shrinks hext

/-- `RtspStreamParser::append` (`parser.rs` lines 38-64): the state is the
internal buffer; returns the drained events and the new buffer. -/
def rtspAppend (state data : List Nat) : List RtspEvent × List Nat :=
  appendLoop (state ++ data)

theorem findDoubleCrlf_append (data : List Nat) :
    ∀ (l : List Nat) (k : Nat), findDoubleCrlf l = some k →
      findDoubleCrlf (l ++ data) = some k
  | a :: b :: c :: d :: rest, k, h => by
    rw [List.cons_append, List.cons_append, List.cons_append, List.cons_append]
    by_cases hc : a = 13 ∧ b = 10 ∧ c = 13 ∧ d = 10
    · simp only [findDoubleCrlf, if_pos hc] at h ⊢
      exact h
    · simp only [findDoubleCrlf, if_neg hc] at h ⊢
      rcases hk : findDoubleCrlf (b :: c :: d :: rest) with _ | k'
      · rw [hk] at h; simp at h
      · rw [hk] at h
        have hrec := findDoubleCrlf_append data (b :: c :: d :: rest) k' hk
        rw [List.cons_append, List.cons_append, List.cons_append] at hrec
        rw [hrec]
        simpa using h
  | [], _, h => by simp [findDoubleCrlf] at h
  | [_], _, h => by simp [findDoubleCrlf] at h
  | [_, _], _, h => by simp [findDoubleCrlf] at h
  | [_, _, _], _, h => by simp [findDoubleCrlf] at h

theorem findDoubleCrlf_le :
    ∀ (l : List Nat) (k : Nat), findDoubleCrlf l = some k → k + 4 ≤ l.length
  | a :: b :: c :: d :: rest, k, h => by
    by_cases hc : a = 13 ∧ b = 10 ∧ c = 13 ∧ d = 10
    · simp only [findDoubleCrlf, if_pos hc, Option.some.injEq] at h
      subst h
      simp
    · simp only [findDoubleCrlf, if_neg hc] at h
      rcases hk : findDoubleCrlf (b :: c :: d :: rest) with _ | k'
      · rw [hk] at h; simp at h
      · rw [hk] at h
        simp only [Option.map_some', Option.some.injEq] at h
        have hrec := findDoubleCrlf_le (b :: c :: d :: rest) k' hk
        simp only [List.length_cons] at hrec ⊢
        omega
  | [], _, h => by simp [findDoubleCrlf] at h
  | [_], _, h => by simp [findDoubleCrlf] at h
  | [_, _], _, h => by simp [findDoubleCrlf] at h
  | [_, _, _], _, h => by simp [findDoubleCrlf] at h

theorem appendLoop_stall {buffer : List Nat} (h1 : buffer ≠ [])
    (h2 : buffer.head? ≠ some 0x24) (h3 : extractResponse buffer = none) :
    appendLoop buffer = ([], buffer) := by
  unfold appendLoop
  rw [if_neg h1, if_neg h2]
  split
  · next ev rest hext => rw [h3] at hext; exact absurd hext (by simp)
  · rfl

/-- A fully buffered frame whose status line fails to parse (status code is not
a number): the bytes of the text `HTTP x\r\n\r\n`. -/
def malformedFrame : List Nat := [72, 84, 84, 80, 32, 120, 13, 10, 13, 10]

/-- A complete interleaved frame arriving after the malformed response frame. -/
def laterFrame : List Nat := [0x24, 0, 0, 1, 0xAB]

/-- C1 counterexample: after a complete frame with a malformed status line is
fully buffered, `append` emits no event and does NOT advance past the frame; a
complete interleaved frame appended afterwards also produces no event — the
parser is stuck, contrary to the claim that sync is preserved and later events
still flow. -/
theorem rtsp_malformed_status_counterexample :
    rtspAppend [] malformedFrame = ([], malformedFrame) ∧
    rtspAppend malformedFrame laterFrame = ([], malformedFrame ++ laterFrame) := by
  constructor
  · unfold rtspAppend
    rw [List.nil_append]
    exact appendLoop_stall (by decide) (by decide) (by decide)
  · unfold rtspAppend
    exact appendLoop_stall (by decide) (by decide) (by decide)

/-- C1 (amended): when a complete text frame with a malformed status line is
buffered (and does not begin with 0x24), `extract_response` returns `None`
without draining, so `append` emits no events at all and simply accumulates all
later bytes behind the stuck frame: the response is not consumed and no events
for subsequent bytes are ever emitted. -/
theorem rtsp_malformed_status_stalls (buffer data : List Nat) (header_end : Nat)
    (hfind : findDoubleCrlf buffer = some header_end)
    (hmal : parseStatusLine (headerLines (buffer.take header_end)) = none)
    (hhead : buffer.head? ≠ some 0x24) :
    rtspAppend buffer data = ([], buffer ++ data) := by
  have hlen : header_end + 4 ≤ buffer.length := findDoubleCrlf_le buffer header_end hfind
  have hne : buffer ≠ [] := by
    intro h
    subst h
    simp at hlen
  have happ : findDoubleCrlf (buffer ++ data) = some header_end :=
    findDoubleCrlf_append data buffer header_end hfind
  have htake : (buffer ++ data).take header_end = buffer.take header_end :=
    List.take_append_of_le_length (by omega)
  have hresp : extractResponse (buffer ++ data) = none := by
    simp only [extractResponse, happ, htake, hmal]
  have hne2 : buffer ++ data ≠ [] := by simp [hne]
  have hhead2 : (buffer ++ data).head? ≠ some 0x24 := by
    cases buffer with
    | nil => exact absurd rfl hne
    | cons a l => simpa using hhead
  unfold rtspAppend
  exact appendLoop_stall hne2 hhead2 hresp

theorem rtsp_malformed_status_stalls_witness :
    rtspAppend malformedFrame laterFrame = ([], malformedFrame ++ laterFrame) :=
  rtsp_malformed_status_stalls malformedFrame laterFrame 6 (by decide) (by decide)
    (by decide)

/-! ## H.264 RTP depacketizer, from `src/backend/server/src/rtsp/depacketizer.rs` -/

/-- `usize::saturating_add` on values represented as `Nat`. -/
def satAddUsize (a b : Nat) : Nat := min (a + b) USIZEMAX

/-- `MAX_ACCESS_UNIT_BYTES` (`depacketizer.rs` line 202). -/
def MAX_ACCESS_UNIT_BYTES : Nat := 8 * 1024 * 1024

/-- `MAX_FU_BUFFER_BYTES` (`depacketizer.rs` line 203). -/
def MAX_FU_BUFFER_BYTES : Nat := 4 * 1024 * 1024

/-- The fields of `RtpPacket` (`rtp.rs`) that the depacketizer reads. -/
structure RtpPacket where
  marker : Bool
  sequence_number : Nat
  timestamp : Nat
  payload : List Nat
  deriving Repr, DecidableEq

/-- `AccessUnit` (`depacketizer.rs` lines 3-8). -/
structure AccessUnit where
  nals : List (List Nat)
  rtp_timestamp : Nat
  is_idr : Bool
  deriving Repr, DecidableEq

/-- `H264RtpDepacketizer` state (`depacketizer.rs` lines 10-19). -/
structure H264RtpDepacketizer where
  current_access_unit : List (List Nat)
  current_timestamp : Option Nat
  current_access_unit_bytes : Nat
  fu_buffer : Option (List Nat)
  fu_sequence : Option Nat
  sps : Option (List Nat)
  pps : Option (List Nat)
  parameter_sets_dirty : Bool
  deriving Repr, DecidableEq

/-- `H264RtpDepacketizer::new`. -/
def H264RtpDepacketizer.new : H264RtpDepacketizer :=
  ⟨[], none, 0, none, none, none, none, false⟩

/-- `H264RtpDepacketizer::build_access_unit` (`depacketizer.rs` lines 77-89). -/
def H264RtpDepacketizer.buildAccessUnit (s : H264RtpDepacketizer)
    (timestamp : Nat) : AccessUnit × H264RtpDepacketizer :=
  let nals := s.current_access_unit
  let is_idr := nals.any (fun nal => nal.head?.map (fun b => b &&& 0x1F) == some 5)
  (⟨nals, timestamp, is_idr⟩,
    { s with
      current_access_unit := []
      current_timestamp := none
      current_access_unit_bytes := 0 })

/-- `H264RtpDepacketizer::append_nal` (`depacketizer.rs` lines 91-110). -/
def H264RtpDepacketizer.appendNal (s : H264RtpDepacketizer) (nal : List Nat)
    (timestamp : Nat) : H264RtpDepacketizer :=
  let s := if s.current_timestamp.isNone
    then { s with current_timestamp := some timestamp } else s
  let s := match nal.head?.map (fun b => b &&& 0x1F) with
    | some 7 => { s with sps := some nal, parameter_sets_dirty := s.pps.isSome }
    | some 8 => { s with pps := some nal, parameter_sets_dirty := s.sps.isSome }
    | _ => s
  { s with
    current_access_unit_bytes := satAddUsize s.current_access_unit_bytes nal.length
    current_access_unit := s.current_access_unit ++ [nal] }

/-- The `while index + 2 <= payload.len()` loop of `extract_stap_a`. -/
def stapLoop (payload : List Nat) (index : Nat) (nals : List (List Nat)) :
    List (List Nat) :=
  if _h : index + 2 ≤ payload.length then
    let size := ((payload.getD index 0) <<< 8) ||| (payload.getD (index + 1) 0)
    let index' := index + 2
    if payload.length < index' + size then nals
    else stapLoop payload (index' + size) (nals ++ [(payload.drop index').take size])
  else nals
  termination_by payload.length + 2 - index
  decreasing_by omega

/-- `H264RtpDepacketizer::extract_stap_a` (`depacketizer.rs` lines 126-142). -/
def extract_stap_a (payload : List Nat) : List (List Nat) :=
  if payload.length ≤ 1 then [] else stapLoop payload 1 []

/-- The continuation path of `extract_fu_a` after the sequence check: extend the
buffer, enforce the 4 MiB bound, and flush on the End bit. -/
def fuContinue (s : H264RtpDepacketizer) (payload : List Nat) (sequence : Nat)
    (ending : Bool) : List (List Nat) × H264RtpDepacketizer :=
  match s.fu_buffer with
  | none => ([], s)
  | some buf =>
    let buf := buf ++ payload.drop 2
    if MAX_FU_BUFFER_BYTES < buf.length then
      ([], { s with fu_buffer := none, fu_sequence := none })
    else
      let s := { s with fu_buffer := some buf, fu_sequence := some sequence }
      if ending then ([buf], { s with fu_buffer := none, fu_sequence := none })
      else ([], s)

/-- `H264RtpDepacketizer::extract_fu_a` (`depacketizer.rs` lines 144-199). -/
def extract_fu_a (s : H264RtpDepacketizer) (payload : List Nat)
    (sequence : Nat) : List (List Nat) × H264RtpDepacketizer :=
  if payload.length ≤ 2 then ([], s)
  else
    let fu_indicator := payload.headD 0
    let fu_header := (payload.drop 1).headD 0
    let start := fu_header &&& 0x80 ≠ 0
    let ending := fu_header &&& 0x40 ≠ 0
    let nal_type := fu_header &&& 0x1F
    let nal_header := (fu_indicator &&& 0xE0) ||| nal_type
    if start then
      ([], { s with
        fu_buffer := some (nal_header :: payload.drop 2)
        fu_sequence := some sequence })
    else
      match s.fu_sequence with
      | some prev =>
        if sequence ≠ (prev + 1) % 65536 then
          ([], { s with fu_buffer := none, fu_sequence := none })
        else fuContinue s payload sequence ending
      | none => fuContinue s payload sequence ending

/-- `H264RtpDepacketizer::extract_nals` (`depacketizer.rs` lines 112-124). -/
def extract_nals (s : H264RtpDepacketizer) (packet : RtpPacket) :
    List (List Nat) × H264RtpDepacketizer :=
  match packet.payload with
  | [] => ([], s)
  | b :: _ =>
    let nal_type := b &&& 0x1F
    if 1 ≤ nal_type ∧ nal_type ≤ 23 then ([packet.payload], s)
    else if nal_type = 24 then (extract_stap_a packet.payload, s)
    else if nal_type = 28 then
      extract_fu_a s packet.payload packet.sequence_number
    else ([], s)

/-- `H264RtpDepacketizer::handle` (`depacketizer.rs` lines 45-75). -/
def H264RtpDepacketizer.handle (s : H264RtpDepacketizer) (packet : RtpPacket) :
    List AccessUnit × H264RtpDepacketizer :=
  let step1 : List AccessUnit × H264RtpDepacketizer :=
    match s.current_timestamp with
    | some current_ts =>
      if current_ts ≠ packet.timestamp ∧ s.current_access_unit ≠ [] then
        let built := s.buildAccessUnit current_ts
        ([built.1], built.2)
      else ([], s)
    | none => ([], s)
  let extracted := extract_nals step1.2 packet
  let step2 := extracted.1.foldl
    (fun (acc : List AccessUnit × H264RtpDepacketizer) nal =>
      let s' := acc.2.appendNal nal packet.timestamp
      if MAX_ACCESS_UNIT_BYTES ≤ s'.current_access_unit_bytes then
        match s'.current_timestamp with
        | some ts =>
          let built := s'.buildAccessUnit ts
          (acc.1 ++ [built.1], built.2)
        | none => (acc.1, s')
      else (acc.1, s'))
    (step1.1, extracted.2)
  if packet.marker ∧ step2.2.current_timestamp.isSome ∧
      step2.2.current_access_unit ≠ [] then
    let ts := step2.2.current_timestamp.getD packet.timestamp
    let built := step2.2.buildAccessUnit ts
    (step2.1 ++ [built.1], built.2)
  else step2

/-- Feed a list of RTP packets through `handle`, concatenating the emitted
access units. -/
def H264RtpDepacketizer.handleAll (s : H264RtpDepacketizer) :
    List RtpPacket → List AccessUnit × H264RtpDepacketizer
  | [] => ([], s)
  | p :: ps =>
    let step := s.handle p
    let rest := step.2.handleAll ps
    (step.1 ++ rest.1, rest.2)

theorem appendNal_au (s : H264RtpDepacketizer) (nal : List Nat) (ts : Nat) :
    (s.appendNal nal ts).current_access_unit = s.current_access_unit ++ [nal] := by
  simp only [H264RtpDepacketizer.appendNal]
  split <;> split <;> rfl

theorem appendNal_bytes (s : H264RtpDepacketizer) (nal : List Nat) (ts : Nat) :
    (s.appendNal nal ts).current_access_unit_bytes =
      satAddUsize s.current_access_unit_bytes nal.length := by
  simp only [H264RtpDepacketizer.appendNal]
  split <;> split <;> rfl

theorem appendNal_ts (s : H264RtpDepacketizer) (nal : List Nat) (ts : Nat) :
    (s.appendNal nal ts).current_timestamp =
      (if s.current_timestamp.isNone then some ts else s.current_timestamp) := by
  simp only [H264RtpDepacketizer.appendNal]
  split <;> split <;> simp_all

theorem extract_nals_single (s : H264RtpDepacketizer) (p : RtpPacket) (b : Nat)
    (hhead : p.payload.head? = some b)
    (ht1 : 1 ≤ b &&& 0x1F) (ht2 : b &&& 0x1F ≤ 23) :
    extract_nals s p = ([p.payload], s) := by
  rcases hp : p.payload with _ | ⟨b0, tl⟩
  · rw [hp] at hhead; simp at hhead
  · rw [hp] at hhead
    obtain rfl : b = b0 := by simpa using hhead.symm
    simp only [extract_nals, hp]
    rw [if_pos ⟨ht1, ht2⟩]

/-- A single-NAL packet (payload type 1..=23) whose append pushes the access
unit to or past the 8 MiB bound is flushed immediately: `handle` returns the
oversized access unit (it is not discarded). -/
theorem handle_fresh_oversize (payload : List Nat) (b seq ts : Nat)
    (hhead : payload.head? = some b)
    (ht1 : 1 ≤ b &&& 0x1F) (ht2 : b &&& 0x1F ≤ 23)
    (hbig : MAX_ACCESS_UNIT_BYTES ≤ payload.length)
    (hsz : payload.length ≤ USIZEMAX) :
    (H264RtpDepacketizer.new.handle ⟨false, seq, ts, payload⟩).1 =
      [⟨[payload], ts, b &&& 0x1F == 5⟩] := by
  have hnals := extract_nals_single H264RtpDepacketizer.new
    ⟨false, seq, ts, payload⟩ b hhead ht1 ht2
  simp only [H264RtpDepacketizer.new] at hnals
  have hsat : satAddUsize 0 payload.length = payload.length := by
    unfold satAddUsize; omega
  have hbeq : (payload.head?.map (fun v => v &&& 0x1F) == some 5) =
      (b &&& 0x1F == 5) := by
    rw [hhead]; rfl
  simp [H264RtpDepacketizer.handle, H264RtpDepacketizer.new, hnals,
    appendNal_bytes, appendNal_ts, appendNal_au, hsat, hbig,
    H264RtpDepacketizer.buildAccessUnit, hbeq]

/-- A FU-A continuation whose accumulated buffer exceeds the 4 MiB bound is
dropped: no NAL is emitted and the reassembly state is cleared. -/
theorem extract_fu_overflow (s : H264RtpDepacketizer) (buf rest : List Nat)
    (ind hdr prev : Nat)
    (hbuf : s.fu_buffer = some buf)
    (hseq : s.fu_sequence = some prev)
    (hrest : rest ≠ [])
    (hstart : hdr &&& 0x80 = 0)
    (hover : MAX_FU_BUFFER_BYTES < buf.length + rest.length) :
    extract_fu_a s (ind :: hdr :: rest) ((prev + 1) % 65536) =
      ([], { s with fu_buffer := none, fu_sequence := none }) := by
  have hlen : ¬((ind :: hdr :: rest).length ≤ 2) := by
    simp only [List.length_cons]
    have := List.length_pos.mpr hrest
    omega
  simp only [extract_fu_a, if_neg hlen]
  rw [if_neg (by simp [hstart])]
  simp only [hseq]
  rw [if_neg (by simp)]
  simp only [fuContinue, hbuf, List.drop_succ_cons, List.drop_zero]
  rw [if_pos (by simpa using hover)]

/-- A single NAL of type 1 whose total size is exactly 8 MiB. -/
def hugeNalPayload : List Nat := 1 :: List.replicate (8 * 1024 * 1024 - 1) 0

theorem hugeNalPayload_length : hugeNalPayload.length = 8388608 := by
  unfold hugeNalPayload
  rw [List.length_cons, List.length_replicate]

/-- C2 counterexample: a single-NAL packet that pushes the access unit to the
8 MiB bound is NOT dropped — `handle` returns the oversized access unit
containing that NAL (the source log even says "forcing flush"). -/
theorem depacketizer_oversize_counterexample :
    (H264RtpDepacketizer.new.handle ⟨false, 0, 1000, hugeNalPayload⟩).1 =
      [⟨[hugeNalPayload], 1000, false⟩] := by
  have h := handle_fresh_oversize hugeNalPayload 1 0 1000 (by rfl)
    (by decide) (by decide)
    (by rw [hugeNalPayload_length]; norm_num [MAX_ACCESS_UNIT_BYTES])
    (by rw [hugeNalPayload_length]; norm_num [USIZEMAX])
  simpa using h

/-- C2 (amended): an access unit reaching the 8 MiB bound forces an immediate
flush — the oversized unit is emitted from `handle`, not discarded — while a
FU-A reassembly buffer exceeding the 4 MiB bound is dropped with no NAL
emitted and the FU state cleared; only a warning is logged in both cases. -/
theorem depacketizer_size_bounds :
    (∀ (payload : List Nat) (b seq ts : Nat),
      payload.head? = some b → 1 ≤ b &&& 0x1F → b &&& 0x1F ≤ 23 →
      MAX_ACCESS_UNIT_BYTES ≤ payload.length → payload.length ≤ USIZEMAX →
      (H264RtpDepacketizer.new.handle ⟨false, seq, ts, payload⟩).1 =
        [⟨[payload], ts, b &&& 0x1F == 5⟩]) ∧
    (∀ (s : H264RtpDepacketizer) (buf rest : List Nat) (ind hdr prev : Nat),
      s.fu_buffer = some buf → s.fu_sequence = some prev → rest ≠ [] →
      hdr &&& 0x80 = 0 → MAX_FU_BUFFER_BYTES < buf.length + rest.length →
      extract_fu_a s (ind :: hdr :: rest) ((prev + 1) % 65536) =
        ([], { s with fu_buffer := none, fu_sequence := none })) :=
  ⟨fun payload b seq ts h1 h2 h3 h4 h5 =>
      handle_fresh_oversize payload b seq ts h1 h2 h3 h4 h5,
    fun s buf rest ind hdr prev h1 h2 h3 h4 h5 =>
      extract_fu_overflow s buf rest ind hdr prev h1 h2 h3 h4 h5⟩

/-- A depacketizer state holding a 4 MiB FU-A reassembly buffer awaiting
sequence 10. -/
def fuOverflowState : H264RtpDepacketizer :=
  ⟨[], none, 0, some (List.replicate (4 * 1024 * 1024) 0), some 9, none, none,
    false⟩

theorem depacketizer_size_bounds_witness :
    (H264RtpDepacketizer.new.handle ⟨false, 0, 1000, hugeNalPayload⟩).1 =
      [⟨[hugeNalPayload], 1000, (1 : Nat) &&& 0x1F == 5⟩] ∧
    extract_fu_a fuOverflowState [0x7C, 0x1C, 0] 10 =
      ([], { fuOverflowState with fu_buffer := none, fu_sequence := none }) := by
  constructor
  · exact depacketizer_size_bounds.1 hugeNalPayload 1 0 1000 (by rfl) (by decide)
      (by decide)
      (by rw [hugeNalPayload_length]; norm_num [MAX_ACCESS_UNIT_BYTES])
      (by rw [hugeNalPayload_length]; norm_num [USIZEMAX])
  · have h := depacketizer_size_bounds.2 fuOverflowState
      (List.replicate (4 * 1024 * 1024) 0) [0] 0x7C 0x1C 9 rfl rfl (by simp)
      (by decide)
      (by rw [List.length_replicate]; norm_num [MAX_FU_BUFFER_BYTES])
    simpa using h

/-- C4 counterexample: a packet sequence sharing one timestamp whose only
marker is on the last packet can emit zero access units — a single marker
packet with an empty payload yields no `AccessUnit` at all, not exactly one. -/
theorem depacketizer_one_au_counterexample :
    (H264RtpDepacketizer.new.handleAll [⟨true, 0, 7, []⟩]).1 = [] := by
  decide

theorem handle_single_nonmarker (s : H264RtpDepacketizer) (seq T : Nat)
    (payload : List Nat) (b : Nat)
    (hhead : payload.head? = some b)
    (ht1 : 1 ≤ b &&& 0x1F) (ht2 : b &&& 0x1F ≤ 23)
    (hinv : (s.current_timestamp = none ∧ s.current_access_unit = []) ∨
      (s.current_timestamp = some T ∧ s.current_access_unit ≠ []))
    (hbytes : s.current_access_unit_bytes + payload.length
      < MAX_ACCESS_UNIT_BYTES) :
    (s.handle ⟨false, seq, T, payload⟩).1 = [] ∧
    (s.handle ⟨false, seq, T, payload⟩).2.current_timestamp = some T ∧
    (s.handle ⟨false, seq, T, payload⟩).2.current_access_unit =
      s.current_access_unit ++ [payload] ∧
    (s.handle ⟨false, seq, T, payload⟩).2.current_access_unit_bytes =
      s.current_access_unit_bytes + payload.length := by
  have hnals := extract_nals_single s ⟨false, seq, T, payload⟩ b hhead ht1 ht2
  have hsat : satAddUsize s.current_access_unit_bytes payload.length =
      s.current_access_unit_bytes + payload.length := by
    unfold satAddUsize USIZEMAX
    unfold MAX_ACCESS_UNIT_BYTES at hbytes
    omega
  have hflush : ¬(MAX_ACCESS_UNIT_BYTES ≤
      s.current_access_unit_bytes + payload.length) := by omega
  rcases hinv with ⟨hts, hau⟩ | ⟨hts, hau⟩ <;>
    simp [H264RtpDepacketizer.handle, hnals, hts, hau, appendNal_bytes,
      appendNal_ts, appendNal_au, hsat, hflush]

theorem handle_single_marker (s : H264RtpDepacketizer) (seq T : Nat)
    (payload : List Nat) (b : Nat)
    (hhead : payload.head? = some b)
    (ht1 : 1 ≤ b &&& 0x1F) (ht2 : b &&& 0x1F ≤ 23)
    (hinv : (s.current_timestamp = none ∧ s.current_access_unit = []) ∨
      (s.current_timestamp = some T ∧ s.current_access_unit ≠ []))
    (hbytes : s.current_access_unit_bytes + payload.length
      < MAX_ACCESS_UNIT_BYTES) :
    ∃ au : AccessUnit, (s.handle ⟨true, seq, T, payload⟩).1 = [au] ∧
      au.rtp_timestamp = T := by
  have hnals := extract_nals_single s ⟨true, seq, T, payload⟩ b hhead ht1 ht2
  have hsat : satAddUsize s.current_access_unit_bytes payload.length =
      s.current_access_unit_bytes + payload.length := by
    unfold satAddUsize USIZEMAX
    unfold MAX_ACCESS_UNIT_BYTES at hbytes
    omega
  have hflush : ¬(MAX_ACCESS_UNIT_BYTES ≤
      s.current_access_unit_bytes + payload.length) := by omega
  rcases hinv with ⟨hts, hau⟩ | ⟨hts, hau⟩ <;>
    simp [H264RtpDepacketizer.handle, hnals, hts, hau, appendNal_bytes,
      appendNal_ts, appendNal_au, hsat, hflush,
      H264RtpDepacketizer.buildAccessUnit]

theorem handleAll_nonmarker (T : Nat) :
    ∀ (pkts : List RtpPacket) (s : H264RtpDepacketizer),
      (∀ p ∈ pkts, p.timestamp = T ∧ p.marker = false ∧
        ∃ b, p.payload.head? = some b ∧ 1 ≤ b &&& 0x1F ∧ b &&& 0x1F ≤ 23) →
      ((s.current_timestamp = none ∧ s.current_access_unit = []) ∨
        (s.current_timestamp = some T ∧ s.current_access_unit ≠ [])) →
      s.current_access_unit_bytes + (pkts.map (fun p => p.payload.length)).sum
        < MAX_ACCESS_UNIT_BYTES →
      (s.handleAll pkts).1 = [] ∧
      (((s.handleAll pkts).2.current_timestamp = none ∧
          (s.handleAll pkts).2.current_access_unit = []) ∨
        ((s.handleAll pkts).2.current_timestamp = some T ∧
          (s.handleAll pkts).2.current_access_unit ≠ [])) ∧
      (s.handleAll pkts).2.current_access_unit_bytes =
        s.current_access_unit_bytes + (pkts.map (fun p => p.payload.length)).sum
  | [], s, _, hinv, _ => by
    simpa [H264RtpDepacketizer.handleAll] using hinv
  | p :: ps, s, hall, hinv, hbytes => by
    obtain ⟨hT, hm, b, hb, ht1, ht2⟩ := hall p (by simp)
    obtain ⟨pm, pseq, pts, ppay⟩ := p
    simp only at hT hm hb
    have hT' := hT.symm
    subst hT'
    subst hm
    have hstep := handle_single_nonmarker s pseq T ppay b hb ht1 ht2 hinv
      (by simp only [List.map_cons, List.sum_cons] at hbytes; omega)
    have hrec := handleAll_nonmarker T ps
      ((s.handle ⟨false, pseq, T, ppay⟩).2)
      (fun q hq => hall q (by simp [hq]))
      (Or.inr ⟨hstep.2.1, by simp [hstep.2.2.1]⟩)
      (by
        simp only [List.map_cons, List.sum_cons] at hbytes
        rw [hstep.2.2.2]
        omega)
    refine ⟨?_, ?_, ?_⟩
    · simp [H264RtpDepacketizer.handleAll, hstep.1, hrec.1]
    · simpa [H264RtpDepacketizer.handleAll] using hrec.2.1
    · simp only [H264RtpDepacketizer.handleAll, List.map_cons, List.sum_cons]
      rw [hrec.2.2, hstep.2.2.2]
      omega

theorem handleAll_append (xs ys : List RtpPacket) :
    ∀ s : H264RtpDepacketizer, s.handleAll (xs ++ ys) =
      ((s.handleAll xs).1 ++ ((s.handleAll xs).2.handleAll ys).1,
        ((s.handleAll xs).2.handleAll ys).2) := by
  induction xs with
  | nil => intro s; simp [H264RtpDepacketizer.handleAll]
  | cons p ps ih =>
    intro s
    simp [H264RtpDepacketizer.handleAll, ih]

/-- C4 (amended): for a nonempty sequence of RTP packets sharing one timestamp
T, each carrying a single NAL unit (payload type 1..=23), with marker false on
all but the last packet (marker true), and total payload bytes below the 8 MiB
safety bound, the depacketizer emits exactly one `AccessUnit`, whose
`rtp_timestamp` is T. -/
theorem depacketizer_single_ts_one_au (pkts : List RtpPacket) (T : Nat)
    (hne : pkts ≠ [])
    (hall : ∀ p ∈ pkts, p.timestamp = T ∧
      ∃ b, p.payload.head? = some b ∧ 1 ≤ b &&& 0x1F ∧ b &&& 0x1F ≤ 23)
    (hfront : ∀ p ∈ pkts.dropLast, p.marker = false)
    (hlast : ∀ p, pkts.getLast? = some p → p.marker = true)
    (hsum : (pkts.map (fun p => p.payload.length)).sum
      < MAX_ACCESS_UNIT_BYTES) :
    ∃ au : AccessUnit, (H264RtpDepacketizer.new.handleAll pkts).1 = [au] ∧
      au.rtp_timestamp = T := by
  rcases List.eq_nil_or_concat pkts with rfl | ⟨front, lastp, rfl⟩
  · exact absurd rfl hne
  rw [List.concat_eq_append] at *
  have hfrontcond : ∀ p ∈ front, p.timestamp = T ∧ p.marker = false ∧
      ∃ b, p.payload.head? = some b ∧ 1 ≤ b &&& 0x1F ∧ b &&& 0x1F ≤ 23 := by
    intro p hp
    obtain ⟨hT, hb⟩ := hall p (by simp [hp])
    refine ⟨hT, ?_, hb⟩
    exact hfront p (by simpa [List.dropLast_concat] using hp)
  have hsumfront : (0 : Nat) +
      (front.map (fun p => p.payload.length)).sum < MAX_ACCESS_UNIT_BYTES := by
    simp only [List.map_append, List.sum_append] at hsum
    omega
  have hrun := handleAll_nonmarker T front H264RtpDepacketizer.new hfrontcond
    (Or.inl ⟨rfl, rfl⟩) (by simpa [H264RtpDepacketizer.new] using hsumfront)
  obtain ⟨hTl, bl, hbl, hbl1, hbl2⟩ := hall lastp (by simp)
  have hml : lastp.marker = true := hlast lastp (by simp [List.getLast?_concat])
  obtain ⟨lm, lseq, lts, lpay⟩ := lastp
  simp only at hTl hml hbl
  have hTl' := hTl.symm
  subst hTl'
  subst hml
  have hbyteslast : (H264RtpDepacketizer.new.handleAll front).2.current_access_unit_bytes
      + lpay.length < MAX_ACCESS_UNIT_BYTES := by
    rw [hrun.2.2]
    simp only [H264RtpDepacketizer.new]
    simp only [List.map_append, List.sum_append, List.map_cons, List.sum_cons,
      List.map_nil, List.sum_nil] at hsum
    omega
  obtain ⟨au, hau, hauT⟩ := handle_single_marker
    (H264RtpDepacketizer.new.handleAll front).2 lseq T lpay bl hbl hbl1 hbl2
    hrun.2.1 hbyteslast
  refine ⟨au, ?_, hauT⟩
  rw [handleAll_append]
  simp [hrun.1, H264RtpDepacketizer.handleAll, hau]

theorem depacketizer_single_ts_one_au_witness :
    ∃ au : AccessUnit,
      (H264RtpDepacketizer.new.handleAll
        [⟨false, 0, 5, [1, 2]⟩, ⟨true, 1, 5, [1, 3]⟩]).1 = [au] ∧
      au.rtp_timestamp = 5 :=
  depacketizer_single_ts_one_au
    [⟨false, 0, 5, [1, 2]⟩, ⟨true, 1, 5, [1, 3]⟩] 5
    (by decide)
    (by
      intro p hp
      simp only [List.mem_cons, List.not_mem_nil, or_false] at hp
      rcases hp with rfl | rfl
      · exact ⟨rfl, 1, rfl, by decide, by decide⟩
      · exact ⟨rfl, 1, rfl, by decide, by decide⟩)
    (by decide)
    (by decide)
    (by decide)

/-! ## Command codec, from `src/backend/server/src/commands.rs`

Finite `f64` inputs are modelled as `Rat` through `FVal` (which also carries the
non-finite values that `is_finite` rejects); `serde_json::Value` is the `Json`
inductive below, with objects as insertion-ordered field lists. -/

/-- A `serde_json::Value` tree: numbers are either integers (`PosInt`/`NegInt`)
or floats (modelled as `Rat`). -/
inductive Json where
  | null
  | bool (b : Bool)
  | intV (i : Int)
  | floatV (q : Rat)
  | str (s : String)
  | arr (xs : List Json)
  | obj (fields : List (String × Json))

/-- `Value::get` on an object / map lookup. -/
def Json.getField : Json → String → Option Json
  | .obj fields, k => (fields.find? (fun p => p.1 = k)).map (·.2)
  | _, _ => none

/-- An `f64` value: a finite rational or one of the non-finite values. -/
inductive FVal where
  | num (q : Rat)
  | nan
  | inf
  | neginf
  deriving DecidableEq

/-- `f64::is_finite`. -/
def FVal.isFinite : FVal → Bool
  | .num _ => true
  | _ => false

/-- `MotionAxis` (`commands.rs` lines 15-19). -/
inductive MotionAxis where
  | X
  | Y
  | Z
  deriving DecidableEq

/-- `MotionAxis::letter` (`commands.rs` lines 22-28). -/
def MotionAxis.letter : MotionAxis → Char
  | .X => 'X'
  | .Y => 'Y'
  | .Z => 'Z'

/-- `MotionAxis::default_feed_rate` (`commands.rs` lines 30-35). -/
def MotionAxis.default_feed_rate : MotionAxis → Nat
  | .X | .Y => 3000
  | .Z => 600

/-- `CommandRequest` (`commands.rs` lines 38-62). -/
inductive CommandRequest where
  | Pause
  | Resume
  | Stop
  | Light (onVal : Bool)
  | Home
  | Move (axis : MotionAxis) (distance : FVal) (feed_rate : Option Nat)
  | SetNozzleTemp (target_c : FVal)
  | SetBedTemp (target_c : FVal)
  | Extrude (amount_mm : FVal) (feed_rate : Option Nat)

/-- `sanitize_distance` (`commands.rs` lines 240-245): non-finite collapses to
0, else clamp to ±50 mm. -/
def sanitize_distance : FVal → Rat
  | .num q => min (max q (-50)) 50
  | _ => 0

/-- `sanitize_extrude_amount` (`commands.rs` lines 258-263). -/
def sanitize_extrude_amount : FVal → Rat
  | .num q => min (max q (-50)) 50
  | _ => 0

/-- `sanitize_feed_rate` (`commands.rs` lines 247-249): clamp to [60, 12000]. -/
def sanitize_feed_rate (feed_rate : Nat) : Nat := min (max feed_rate 60) 12000

/-- `f64::round` (half away from zero), on rationals. -/
def roundHalfAwayRat (q : Rat) : Rat :=
  if q < 0 then -(((-q) + 1/2).floor : Int) else ((q + 1/2).floor : Int)

/-- `sanitize_temperature` (`commands.rs` lines 251-256). -/
def sanitize_temperature (target_c : FVal) (min_c max_c : Rat) : Rat :=
  match target_c with
  | .num q => roundHalfAwayRat (min (max q min_c) max_c)
  | _ => min_c

/-- Left-pad a 3-digit fraction. -/
def padTo3 (n : Nat) : String :=
  if n < 10 then "00" ++ Nat.repr n
  else if n < 100 then "0" ++ Nat.repr n
  else Nat.repr n

/-- `|q| * 1000` rounded to the nearest integer, ties to even — the rounding of
Rust's fixed-precision float formatting — computed on the reduced
numerator/denominator to stay kernel-evaluable. -/
def scaled3 (q : Rat) : Nat :=
  let n := 1000 * q.num.natAbs
  let d := q.den
  let f := n / d
  let r := n % d
  if 2 * r < d then f
  else if d < 2 * r then f + 1
  else if f % 2 = 0 then f else f + 1

/-- `format!("{value:.3}")` on a finite value: fixed three decimals, rounding
ties to even, sign taken from the value. -/
def formatFixed3 (q : Rat) : String :=
  let m := scaled3 q
  let sign := if q < 0 then "-" else ""
  sign ++ Nat.repr (m / 1000) ++ "." ++ padTo3 (m % 1000)

/-- `format_gcode_number` (`commands.rs` lines 273-286): fixed 3-decimal
rendering, trailing zeros and a trailing dot trimmed, `-0` becomes `0`. -/
def format_gcode_number (value : Rat) : String :=
  let rendered := (formatFixed3 value).toList
  let rendered := (rendered.reverse.dropWhile (fun c => c = '0')).reverse
  let rendered := if rendered.getLast? = some '.' then rendered.dropLast
    else rendered
  let rendered := String.mk rendered
  if rendered = "-0" then "0" else rendered

/-- `motion_gcode` (`commands.rs` lines 231-238). -/
def motion_gcode (axis : MotionAxis) (distance : Rat) (feed_rate : Nat) :
    String :=
  "M211 X0 Y0 Z0 \nM211 S\nM1002 push_ref_mode\nG91\nG1 " ++
    String.mk [axis.letter] ++ format_gcode_number distance ++ " F" ++
    Nat.repr feed_rate ++ "\nM1002 pop_ref_mode\n"

/-- `extrude_gcode` (`commands.rs` lines 265-271). -/
def extrude_gcode (amount_mm : Rat) (feed_rate : Nat) : String :=
  "M83\nG1 E" ++ format_gcode_number amount_mm ++ " F" ++
    Nat.repr feed_rate ++ "\n"

/-- Wrap a `print`-channel gcode_line body. -/
def gcodePayload (user_id : String) (seqStr : String) (gcode : String) : Json :=
  .obj [("user_id", .str user_id),
    ("print", .obj [("sequence_id", .str seqStr),
      ("command", .str "gcode_line"), ("param", .str gcode)])]

/-- `CommandRequest::to_payload` (`commands.rs` lines 124-228). -/
def CommandRequest.to_payload (cmd : CommandRequest) (user_id : String)
    (sequence_id : Nat) : Json :=
  let seqStr := Nat.repr sequence_id
  match cmd with
  | .Pause => .obj [("user_id", .str user_id),
      ("print", .obj [("sequence_id", .str seqStr), ("command", .str "pause")])]
  | .Resume => .obj [("user_id", .str user_id),
      ("print", .obj [("sequence_id", .str seqStr), ("command", .str "resume")])]
  | .Stop => .obj [("user_id", .str user_id),
      ("print", .obj [("sequence_id", .str seqStr), ("command", .str "stop")])]
  | .Light onVal => .obj [("user_id", .str user_id),
      ("system", .obj [("sequence_id", .str seqStr),
        ("command", .str "ledctrl"), ("led_node", .str "chamber_light"),
        ("led_mode", .str (if onVal then "on" else "off")),
        ("led_on_time", .intV 500), ("led_off_time", .intV 500),
        ("loop_times", .intV 0), ("interval_time", .intV 0)])]
  | .Home => gcodePayload user_id seqStr "G28 \n"
  | .Move axis distance feed_rate =>
    let distance := sanitize_distance distance
    let feed_rate := sanitize_feed_rate (feed_rate.getD axis.default_feed_rate)
    gcodePayload user_id seqStr (motion_gcode axis distance feed_rate)
  | .SetNozzleTemp target_c =>
    let sanitized := sanitize_temperature target_c 0 320
    gcodePayload user_id seqStr
      ("M104 S" ++ format_gcode_number sanitized ++ "\n")
  | .SetBedTemp target_c =>
    let sanitized := sanitize_temperature target_c 0 120
    gcodePayload user_id seqStr
      ("M140 S" ++ format_gcode_number sanitized ++ "\n")
  | .Extrude amount_mm feed_rate =>
    let amount_mm := sanitize_extrude_amount amount_mm
    let feed_rate := sanitize_feed_rate (feed_rate.getD 180)
    gcodePayload user_id seqStr (extrude_gcode amount_mm feed_rate)

/-- `needle` occurs as a contiguous substring of `hay`. -/
def leadsWith : List Char → List Char → Bool
  | [], _ => true
  | _ :: _, [] => false
  | a :: arest, b :: brest => a = b && leadsWith arest brest

/-- Substring occurrence check. -/
def containsSub (hay needle : List Char) : Bool :=
  match hay with
  | [] => needle = []
  | _ :: rest => leadsWith needle hay || containsSub rest needle

/-- C9: `Move{axis:Z, distance:1000.0, feed_rate:Some(1)}` produces a
`print`/`gcode_line` payload whose `param` contains the line `G1 Z50 F60`:
the distance is clamped to 50 mm and the feed rate to 60 before formatting. -/
theorem move_clamp_payload :
    (((CommandRequest.Move MotionAxis.Z (FVal.num 1000) (some 1)).to_payload
        "u" 1).getField "print").bind (fun p => p.getField "command") =
      some (Json.str "gcode_line") ∧
    (((CommandRequest.Move MotionAxis.Z (FVal.num 1000) (some 1)).to_payload
        "u" 1).getField "print").bind (fun p => p.getField "param") =
      some (Json.str
        "M211 X0 Y0 Z0 \nM211 S\nM1002 push_ref_mode\nG91\nG1 Z50 F60\nM1002 pop_ref_mode\n") ∧
    containsSub
      "M211 X0 Y0 Z0 \nM211 S\nM1002 push_ref_mode\nG91\nG1 Z50 F60\nM1002 pop_ref_mode\n".toList
      "G1 Z50 F60".toList = true := by
  refine ⟨by rfl, by rfl, by decide⟩

/-! ## RTSP authenticator, from `src/backend/server/src/rtsp/auth.rs`

Strings are `List Char`; the MD5 and base64 primitives come from external
crates and are passed as function parameters. The thread-local RNG of
`reset_nonce` is modelled by passing the 16 random bytes explicitly. -/

/-- `str::to_ascii_lowercase` (ASCII-exact). -/
def toLowerList (s : List Char) : List Char := s.map Char.toLower

/-- `str::split(sep)` (unlimited pieces). -/
def splitAll (sep : Char) : List Char → List (List Char)
  | [] => [[]]
  | c :: rest =>
    if c = sep then [] :: splitAll sep rest
    else
      match splitAll sep rest with
      | [] => [[c]]
      | p :: ps => (c :: p) :: ps

/-- `DigestChallenge` (`auth.rs` lines 111-118). -/
structure DigestChallenge where
  realm : List Char
  nonce : List Char
  qop : Option (List Char)
  algorithm : Option (List Char)
  opaqueV : Option (List Char)
  deriving DecidableEq, Repr

/-- `consume_param` (`auth.rs` lines 169-184). -/
def consumeParam (m : List (List Char × List Char)) (buffer : List Char) :
    List (List Char × List Char) :=
  let trimmed := trimWs buffer
  if trimmed = [] then m
  else
    let parts := splitN 2 '=' trimmed
    let key := toLowerList (trimWs (parts.headD []))
    let value := trimWs ((parts.drop 1).headD [])
    let value := if value.head? = some '"' ∧ value.getLast? = some '"' ∧
        2 ≤ value.length then (value.drop 1).dropLast else value
    if key = [] then m else hmInsert m key value

/-- The character loop of `parse_parameters` (`auth.rs` lines 148-167). -/
def parseParamsLoop : List Char → Bool → List Char →
    List (List Char × List Char) → List (List Char × List Char)
  | [], _, current, m => consumeParam m current
  | ch :: rest, in_quotes, current, m =>
    if ch = '"' then parseParamsLoop rest (!in_quotes) (current ++ ['"']) m
    else if ch = ',' ∧ ¬in_quotes then
      parseParamsLoop rest in_quotes [] (consumeParam m current)
    else parseParamsLoop rest in_quotes (current ++ [ch]) m

/-- `parse_parameters` (`auth.rs` lines 148-167): quote-aware comma splitter. -/
def parse_parameters (params : List Char) : List (List Char × List Char) :=
  parseParamsLoop params false [] []

/-- `DigestChallenge::from_header` (`auth.rs` lines 121-145). -/
def DigestChallenge.from_header (header_value : List Char) :
    Option DigestChallenge :=
  match dropLeading "digest".toList (toLowerList header_value) with
  | none => none
  | some _ =>
    let params := trimWs (header_value.drop 6)
    let parameters := parse_parameters params
    match hmGet parameters "realm".toList, hmGet parameters "nonce".toList with
    | some realm, some nonce =>
      let qop :=
        match hmGet parameters "qop".toList with
        | some v =>
          match (splitAll ',' v).find? (fun item => trimWs item = "auth".toList)
          with
          | some found => some (trimWs found)
          | none => some v
        | none => none
      some ⟨realm, nonce, qop, hmGet parameters "algorithm".toList,
        hmGet parameters "opaque".toList⟩
    | _, _ => none

/-- `RtspAuthenticator` state (`auth.rs` lines 10-15), credentials inlined. -/
structure RtspAuthenticator where
  username : List Char
  password : List Char
  digest : Option DigestChallenge
  nonce_count : Nat
  cnonce : List Char
  deriving DecidableEq, Repr

/-- A nibble as a lowercase hex character. -/
def hexDigit (n : Nat) : Char :=
  if n < 10 then Char.ofNat ('0'.toNat + n) else Char.ofNat ('a'.toNat + (n - 10))

/-- One byte as two lowercase hex characters (`format!("{:02x}", b)`). -/
def byteToHex (b : Nat) : List Char := [hexDigit (b / 16 % 16), hexDigit (b % 16)]

/-- 16 RNG bytes rendered as hex, as in `reset_nonce` (`auth.rs` lines 104-108). -/
def bytesToHexList (bs : List Nat) : List Char := (bs.map byteToHex).flatten

/-- `format!("{:08x}", nc)` for a `u32` counter. -/
def toHex8 (n : Nat) : List Char :=
  ((List.range 8).reverse).map (fun i => hexDigit (n / 16 ^ i % 16))

/-- `RtspAuthenticator::update_challenge` (`auth.rs` lines 29-38): on a parsed
challenge, store it, reset the nonce counter to 0 and refresh the cnonce from
16 fresh random bytes. -/
def RtspAuthenticator.update_challenge (a : RtspAuthenticator)
    (header_value : List Char) (rng : List Nat) : Bool × RtspAuthenticator :=
  match DigestChallenge.from_header header_value with
  | none => (false, a)
  | some c =>
    (true,
      { a with
        digest := some c
        nonce_count := 0
        cnonce := bytesToHexList rng })

/-- The qop-mode Digest header shape of `digest_authorization`
(`auth.rs` lines 70-87), parameterized by the rendered `nc` and `cnonce`. -/
def digestHeaderFor (md5Hex : List Char → List Char)
    (username password : List Char) (c : DigestChallenge)
    (method uri nc_string cnonce qop : List Char) : List Char :=
  let ha1 := md5Hex (username ++ ":".toList ++ c.realm ++ ":".toList ++ password)
  let ha2 := md5Hex (method ++ ":".toList ++ uri)
  let response := md5Hex (ha1 ++ ":".toList ++ c.nonce ++ ":".toList ++
    nc_string ++ ":".toList ++ cnonce ++ ":".toList ++ qop ++ ":".toList ++ ha2)
  "Authorization: Digest username=\"".toList ++ username ++
    "\", realm=\"".toList ++ c.realm ++ "\", nonce=\"".toList ++ c.nonce ++
    "\", uri=\"".toList ++ uri ++ "\", response=\"".toList ++ response ++
    "\", qop=".toList ++ qop ++ ", nc=".toList ++ nc_string ++
    ", cnonce=\"".toList ++ cnonce ++ "\"".toList ++
    (match c.opaqueV with
      | some o => ", opaque=\"".toList ++ o ++ "\"".toList
      | none => []) ++
    (match c.algorithm with
      | some alg => ", algorithm=".toList ++ alg
      | none => [])

/-- The qop-free Digest header of `digest_authorization`
(`auth.rs` lines 90-101). -/
def digestHeaderPlain (md5Hex : List Char → List Char)
    (username password : List Char) (c : DigestChallenge)
    (method uri : List Char) : List Char :=
  let ha1 := md5Hex (username ++ ":".toList ++ c.realm ++ ":".toList ++ password)
  let ha2 := md5Hex (method ++ ":".toList ++ uri)
  let response := md5Hex (ha1 ++ ":".toList ++ c.nonce ++ ":".toList ++ ha2)
  "Authorization: Digest username=\"".toList ++ username ++
    "\", realm=\"".toList ++ c.realm ++ "\", nonce=\"".toList ++ c.nonce ++
    "\", uri=\"".toList ++ uri ++ "\", response=\"".toList ++ response ++
    "\"".toList ++
    (match c.opaqueV with
      | some o => ", opaque=\"".toList ++ o ++ "\"".toList
      | none => []) ++
    (match c.algorithm with
      | some alg => ", algorithm=".toList ++ alg
      | none => [])

/-- `RtspAuthenticator::digest_authorization` (`auth.rs` lines 56-102): with a
qop the `nc` counter is `saturating_add(1)`-incremented and rendered as 8 hex
digits. -/
def RtspAuthenticator.digest_authorization (md5Hex : List Char → List Char)
    (a : RtspAuthenticator) (method uri : List Char)
    (challenge : DigestChallenge) : List Char × RtspAuthenticator :=
  match challenge.qop with
  | some qop =>
    let nc := satAdd32 a.nonce_count 1
    (digestHeaderFor md5Hex a.username a.password challenge method uri
        (toHex8 nc) a.cnonce qop,
      { a with nonce_count := nc })
  | none =>
    (digestHeaderPlain md5Hex a.username a.password challenge method uri, a)

/-- `RtspAuthenticator::authorization_header` (`auth.rs` lines 40-45). -/
def RtspAuthenticator.authorization_header
    (md5Hex b64encode : List Char → List Char) (a : RtspAuthenticator)
    (method uri : List Char) : List Char × RtspAuthenticator :=
  match a.digest with
  | some challenge => a.digest_authorization md5Hex method uri challenge
  | none =>
    ("Authorization: Basic ".toList ++
      b64encode (a.username ++ ":".toList ++ a.password), a)

/-- Iterate `authorization_header`, keeping the last emitted header. -/
def authIter (md5Hex b64encode : List Char → List Char)
    (method uri : List Char) :
    Nat → RtspAuthenticator → Option (List Char) × RtspAuthenticator
  | 0, a => (none, a)
  | k + 1, a =>
    let prev := authIter md5Hex b64encode method uri k a
    let call := prev.2.authorization_header md5Hex b64encode method uri
    (some call.1, call.2)

theorem bytesToHexList_length (bs : List Nat) :
    (bytesToHexList bs).length = 2 * bs.length := by
  induction bs with
  | nil => rfl
  | cons b t ih =>
    simp only [bytesToHexList, List.map_cons, List.flatten_cons, byteToHex,
      List.length_append, List.length_cons, List.length_nil] at ih ⊢
    omega

theorem authIter_digest_state (md5Hex b64encode : List Char → List Char)
    (method uri : List Char) (c : DigestChallenge) (q : List Char)
    (hqop : c.qop = some q) :
    ∀ (k : Nat) (s : RtspAuthenticator), s.digest = some c →
      s.nonce_count ≤ U32MOD - 1 →
      (authIter md5Hex b64encode method uri k s).2.digest = some c ∧
      (authIter md5Hex b64encode method uri k s).2.cnonce = s.cnonce ∧
      (authIter md5Hex b64encode method uri k s).2.username = s.username ∧
      (authIter md5Hex b64encode method uri k s).2.password = s.password ∧
      (authIter md5Hex b64encode method uri k s).2.nonce_count =
        min (s.nonce_count + k) (U32MOD - 1)
  | 0, s, hd, hle => by
    refine ⟨hd, rfl, rfl, rfl, ?_⟩
    simp only [authIter]
    omega
  | k + 1, s, hd, hle => by
    obtain ⟨ih1, ih2, ih3, ih4, ih5⟩ :=
      authIter_digest_state md5Hex b64encode method uri c q hqop k s hd hle
    have hstep : (authIter md5Hex b64encode method uri (k + 1) s).2 =
        { (authIter md5Hex b64encode method uri k s).2 with
          nonce_count :=
            satAdd32 (authIter md5Hex b64encode method uri k s).2.nonce_count
              1 } := by
      simp only [authIter, RtspAuthenticator.authorization_header, ih1,
        RtspAuthenticator.digest_authorization, hqop]
    rw [hstep]
    refine ⟨by simp [ih1], by simp [ih2], by simp [ih3], by simp [ih4], ?_⟩
    simp only [ih5]
    unfold satAdd32
    unfold U32MOD at hle ⊢
    omega

theorem authIter_header (md5Hex b64encode : List Char → List Char)
    (method uri : List Char) (c : DigestChallenge) (q : List Char)
    (hqop : c.qop = some q) (k : Nat) (s : RtspAuthenticator)
    (hd : s.digest = some c) (hle : s.nonce_count ≤ U32MOD - 1) :
    (authIter md5Hex b64encode method uri (k + 1) s).1 =
      some (digestHeaderFor md5Hex s.username s.password c method uri
        (toHex8 (satAdd32 (min (s.nonce_count + k) (U32MOD - 1)) 1))
        s.cnonce q) := by
  obtain ⟨ih1, ih2, ih3, ih4, ih5⟩ :=
    authIter_digest_state md5Hex b64encode method uri c q hqop k s hd hle
  simp only [authIter, RtspAuthenticator.authorization_header, ih1,
    RtspAuthenticator.digest_authorization, hqop, ih2, ih3, ih4, ih5]

/-- C6: after a successful `update_challenge` with a qop-advertising challenge,
the nonce counter is reset to 0 and the cnonce is the hex rendering of the 16
fresh random bytes (32 hex chars = 128 bits); the k-th subsequent
`authorization_header` call carries `nc` = k rendered as an 8-hex-digit counter
(00000001, 00000002, ...), incrementing by exactly 1 per authenticated request
within the `u32` range of the counter. -/
theorem digest_nc_resets_and_increments
    (md5Hex b64encode : List Char → List Char)
    (a : RtspAuthenticator) (hdr : List Char) (rng : List Nat)
    (method uri : List Char) (c : DigestChallenge) (q : List Char)
    (hparse : DigestChallenge.from_header hdr = some c)
    (hqop : c.qop = some q)
    (hrng : rng.length = 16) :
    (a.update_challenge hdr rng).1 = true ∧
    (a.update_challenge hdr rng).2.nonce_count = 0 ∧
    (a.update_challenge hdr rng).2.cnonce = bytesToHexList rng ∧
    (bytesToHexList rng).length = 32 ∧
    (∀ k : Nat, k + 1 ≤ U32MOD - 1 →
      (authIter md5Hex b64encode method uri (k + 1)
          (a.update_challenge hdr rng).2).2.nonce_count = k + 1 ∧
      (authIter md5Hex b64encode method uri (k + 1)
          (a.update_challenge hdr rng).2).1 =
        some (digestHeaderFor md5Hex a.username a.password c method uri
          (toHex8 (k + 1)) (bytesToHexList rng) q)) := by
  have hupd : a.update_challenge hdr rng =
      (true,
        { a with
          digest := some c
          nonce_count := 0
          cnonce := bytesToHexList rng }) := by
    simp only [RtspAuthenticator.update_challenge, hparse]
  rw [hupd]
  refine ⟨rfl, rfl, rfl, ?_, ?_⟩
  · rw [bytesToHexList_length, hrng]
  · intro k hk
    set u : RtspAuthenticator :=
      { a with
        digest := some c
        nonce_count := 0
        cnonce := bytesToHexList rng } with hu
    have hd : u.digest = some c := rfl
    have hle : u.nonce_count ≤ U32MOD - 1 := by
      simp [hu, U32MOD]
    constructor
    · have := (authIter_digest_state md5Hex b64encode method uri c q hqop
        (k + 1) u hd hle).2.2.2.2
      rw [this]
      show min (0 + (k + 1)) (U32MOD - 1) = k + 1
      omega
    · have := authIter_header md5Hex b64encode method uri c q hqop k u hd hle
      rw [this]
      have hmin : min (u.nonce_count + k) (U32MOD - 1) = k := by
        show min (0 + k) (U32MOD - 1) = k
        omega
      rw [hmin]
      have hsat : satAdd32 k 1 = k + 1 := by
        unfold satAdd32
        omega
      rw [hsat]

/-- The challenge header of the digest roundtrip scenario. -/
def challengeHdr : List Char :=
  "Digest realm=\"r\", nonce=\"abc\", qop=\"auth,auth-int\"".toList

/-- The parsed form of `challengeHdr`. -/
def challengeParsed : DigestChallenge :=
  ⟨"r".toList, "abc".toList, some "auth".toList, none, none⟩

theorem digest_nc_resets_and_increments_witness :
    (DigestChallenge.from_header challengeHdr = some challengeParsed) ∧
    ((⟨"u".toList, "p".toList, none, 0, []⟩ :
        RtspAuthenticator).update_challenge challengeHdr
        (List.replicate 16 0)).2.nonce_count = 0 ∧
    (authIter (fun _ => []) (fun _ => []) "OPTIONS".toList
        "rtsp://h/s".toList 1
        ((⟨"u".toList, "p".toList, none, 0, []⟩ :
          RtspAuthenticator).update_challenge challengeHdr
          (List.replicate 16 0)).2).1 =
      some (digestHeaderFor (fun _ => []) "u".toList "p".toList
        challengeParsed "OPTIONS".toList "rtsp://h/s".toList (toHex8 1)
        (bytesToHexList (List.replicate 16 0)) "auth".toList) := by
  have hp : DigestChallenge.from_header challengeHdr = some challengeParsed := by
    decide
  have h := digest_nc_resets_and_increments (fun _ => []) (fun _ => [])
    ⟨"u".toList, "p".toList, none, 0, []⟩ challengeHdr
    (List.replicate 16 0) "OPTIONS".toList "rtsp://h/s".toList
    challengeParsed "auth".toList hp rfl (by simp)
  have hk := h.2.2.2.2 0 (by unfold U32MOD; omega)
  exact ⟨hp, h.2.1, hk.2⟩

/-! ## Printer state projection, from `src/backend/server/src/state.rs`

`serde_json::Value` is the `Json` inductive; its `pointer` method is embedded
below with serde's token unescaping and array-index rules. `Utc::now()` is
passed explicitly as `now`. -/

/-- `Value::as_str`. -/
def Json.asStr : Json → Option String
  | .str s => some s
  | _ => none

/-- `Value::as_array`. -/
def Json.asArray : Json → Option (List Json)
  | .arr xs => some xs
  | _ => none

/-- `Value::as_object`. -/
def Json.asObject : Json → Option (List (String × Json))
  | .obj fields => some fields
  | _ => none

/-- `Number::as_u64`: `Some` only for non-negative integer numbers in range. -/
def Json.numAsU64 : Json → Option Nat
  | .intV i => if 0 ≤ i ∧ i ≤ (USIZEMAX : Int) then some i.toNat else none
  | _ => none

/-- `Number::as_i64`. -/
def Json.numAsI64 : Json → Option Int
  | .intV i => if -(2 ^ 63) ≤ i ∧ i ≤ 2 ^ 63 - 1 then some i else none
  | _ => none

/-- `Number::as_f64` (always succeeds on a number; value as a rational). -/
def Json.numAsF64 : Json → Option Rat
  | .intV i => some (i : Rat)
  | .floatV q => some q
  | _ => none

/-- JSON-pointer token unescaping: `~1` → `/` then `~0` → `~`. -/
def unescapeToken : List Char → List Char
  | [] => []
  | '~' :: '1' :: rest => '/' :: unescapeToken rest
  | '~' :: '0' :: rest => '~' :: unescapeToken rest
  | c :: rest => c :: unescapeToken rest

/-- serde's `parse_index` for pointer array tokens: no `+`, no leading zeros. -/
def parseIndexPtr (s : List Char) : Option Nat :=
  if s.head? = some '+' then none
  else if s.head? = some '0' ∧ s.length ≠ 1 then none
  else parseUsize s

/-- The `try_fold` of `Value::pointer` over unescaped tokens. -/
def Json.pointerAux : Json → List (List Char) → Option Json
  | v, [] => some v
  | v, token :: rest =>
    match v with
    | .obj fields =>
      match (fields.find? (fun p => p.1.toList = token)).map (·.2) with
      | some nxt => Json.pointerAux nxt rest
      | none => none
    | .arr xs =>
      match parseIndexPtr token with
      | some i =>
        match xs.get? i with
        | some nxt => Json.pointerAux nxt rest
        | none => none
      | none => none
    | _ => none

/-- `Value::pointer`. -/
def Json.pointer (v : Json) (ptr : List Char) : Option Json :=
  if ptr = [] then some v
  else if ptr.head? ≠ some '/' then none
  else Json.pointerAux v (((splitAll '/' ptr).drop 1).map unescapeToken)

/-- `Option::or_else` over two pointer lookups. -/
def Json.pointer2 (v : Json) (p1 p2 : List Char) : Option Json :=
  (v.pointer p1).orElse (fun _ => v.pointer p2)

/-- `read_str` (`state.rs` lines 139-141). -/
def read_str (value : Option Json) : Option String :=
  value.bind Json.asStr

/-- Decimal string parse for `u8`/`u32` string fields. -/
def parseNatBounded (maxVal : Nat) (s : String) : Option Nat :=
  parseNatLe maxVal s.toList

/-- `read_u8` (`state.rs` lines 143-149). -/
def read_u8 (value : Option Json) : Option Nat :=
  match value with
  | some (Json.intV i) =>
    (Json.numAsU64 (Json.intV i)).bind (fun n => if n ≤ 255 then some n else none)
  | some (Json.str text) => parseNatBounded 255 text
  | _ => none

/-- `read_u32` (`state.rs` lines 151-157). -/
def read_u32 (value : Option Json) : Option Nat :=
  match value with
  | some (Json.intV i) =>
    (Json.numAsU64 (Json.intV i)).bind
      (fun n => if n ≤ U32MOD - 1 then some n else none)
  | some (Json.str text) => parseNatBounded (U32MOD - 1) text
  | _ => none

/-- Decimal `f64` string parse, modelled on rationals: sign, digits, optional
fraction, optional exponent. -/
def parseF64Rat (s : String) : Option Rat :=
  let t := s.toList
  let (sign, t) := match t with
    | '-' :: rest => ((-1 : Rat), rest)
    | '+' :: rest => ((1 : Rat), rest)
    | other => ((1 : Rat), other)
  let intDigits := t.takeWhile Char.isDigit
  let t := t.dropWhile Char.isDigit
  let (fracDigits, t) := match t with
    | '.' :: rest => (rest.takeWhile Char.isDigit, rest.dropWhile Char.isDigit)
    | other => ([], other)
  let (expOk, expSign, expDigits, t) := match t with
    | 'e' :: '-' :: rest => (true, (-1 : Int), rest.takeWhile Char.isDigit,
        rest.dropWhile Char.isDigit)
    | 'e' :: '+' :: rest => (true, (1 : Int), rest.takeWhile Char.isDigit,
        rest.dropWhile Char.isDigit)
    | 'e' :: rest => (true, (1 : Int), rest.takeWhile Char.isDigit,
        rest.dropWhile Char.isDigit)
    | 'E' :: '-' :: rest => (true, (-1 : Int), rest.takeWhile Char.isDigit,
        rest.dropWhile Char.isDigit)
    | 'E' :: '+' :: rest => (true, (1 : Int), rest.takeWhile Char.isDigit,
        rest.dropWhile Char.isDigit)
    | 'E' :: rest => (true, (1 : Int), rest.takeWhile Char.isDigit,
        rest.dropWhile Char.isDigit)
    | other => (false, (1 : Int), [], other)
  if t ≠ [] then none
  else if intDigits = [] ∧ fracDigits = [] then none
  else if expOk ∧ expDigits = [] then none
  else
    let digitsVal (l : List Char) : Nat :=
      l.foldl (fun acc c => acc * 10 + (c.toNat - '0'.toNat)) 0
    let mantissa : Rat :=
      (digitsVal intDigits : Rat) +
        (digitsVal fracDigits : Rat) / ((10 : Rat) ^ fracDigits.length)
    let expVal : Int := expSign * (digitsVal expDigits : Int)
    some (sign * mantissa * (10 : Rat) ^ expVal)

/-- `read_f64` (`state.rs` lines 159-165). -/
def read_f64 (value : Option Json) : Option Rat :=
  match value with
  | some (Json.intV i) => Json.numAsF64 (Json.intV i)
  | some (Json.floatV q) => Json.numAsF64 (Json.floatV q)
  | some (Json.str text) => parseF64Rat text
  | _ => none

/-- `non_empty_text` (`state.rs` lines 233-239). -/
def non_empty_text (value : String) : Option String :=
  let trimmed := String.mk (trimWs value.toList)
  if trimmed = "" then none else some trimmed

/-- `normalize_light_mode` (`state.rs` lines 276-282). -/
def normalize_light_mode (mode : String) : String :=
  match mode with
  | "on" => mode
  | "off" => mode
  | "flashing" => "on"
  | other => other

/-- `AmsTrayState` (`state.rs` lines 14-20). -/
structure AmsTrayState where
  id : Option Nat
  filament_type : Option String
  color : Option String
  deriving DecidableEq, Repr

/-- `AmsUnitState` (`state.rs` lines 5-12). -/
structure AmsUnitState where
  id : Option Nat
  humidity_raw : Option Nat
  trays : List AmsTrayState
  deriving DecidableEq, Repr

/-- Object-field lookup (`serde_json::Map::get`). -/
def objGet (fields : List (String × Json)) (k : String) : Option Json :=
  (fields.find? (fun p => p.1 = k)).map (·.2)

/-- `extract_tray_color` (`state.rs` lines 220-231). -/
def extract_tray_color (tray : List (String × Json)) : Option String :=
  match read_str (objGet tray "tray_color") with
  | some color => non_empty_text color
  | none =>
    (((objGet tray "cols").bind Json.asArray).bind
      (fun colors => colors.head?)).bind Json.asStr |>.bind non_empty_text

/-- `extract_ams_trays` (`state.rs` lines 193-218). -/
def extract_ams_trays (value : Option Json) : List AmsTrayState :=
  match value.bind Json.asArray with
  | none => []
  | some trays =>
    (trays.enum.filterMap (fun (index, tray) =>
      match tray.asObject with
      | none => none
      | some t =>
        let id := (read_u8 (objGet t "id")).orElse
          (fun _ => if index ≤ 255 then some index else none)
        let filament_type := (read_str (objGet t "tray_type")).bind non_empty_text
        let color := extract_tray_color t
        if id = none ∧ filament_type = none ∧ color = none then none
        else some ⟨id, filament_type, color⟩))

/-- `extract_ams` (`state.rs` lines 167-191). -/
def extract_ams (report : Json) : Option (List AmsUnitState) :=
  match (report.pointer2 "/print/ams/ams".toList "/ams/ams".toList).bind
      Json.asArray with
  | none => none
  | some units =>
    some (units.enum.filterMap (fun (index, unit) =>
      match unit.asObject with
      | none => none
      | some u =>
        let id := (read_u8 (objGet u "id")).orElse
          (fun _ => if index + 1 ≤ 255 then some (index + 1) else none)
        let humidity_raw := read_u8 (objGet u "humidity_raw")
        let trays := extract_ams_trays (objGet u "tray")
        some ⟨id, humidity_raw, trays⟩))

/-- The entry loop of `extract_light`'s array case (`state.rs` lines 247-257). -/
def lightFromArray : List Json → Option String
  | [] => none
  | entry :: rest =>
    if (entry.getField "node").bind Json.asStr = some "chamber_light" then
      match (entry.getField "mode").bind Json.asStr with
      | some mode => some (normalize_light_mode mode)
      | none => lightFromArray rest
    else lightFromArray rest

/-- `extract_light` (`state.rs` lines 241-274). -/
def extract_light (report : Json) : Option String :=
  match report.pointer2 "/print/lights_report".toList "/lights_report".toList
  with
  | some (Json.arr entries) => lightFromArray entries
  | some (Json.obj map) =>
    (objGet map "chamber_light").bind (fun value =>
      match value with
      | Json.intV i =>
        some (if (Json.numAsI64 (Json.intV i)).getD 0 = 0 then "off" else "on")
      | Json.floatV q =>
        some (if (Json.numAsI64 (Json.floatV q)).getD 0 = 0 then "off" else "on")
      | Json.bool flag => some (if flag then "on" else "off")
      | Json.str text => some (normalize_light_mode text)
      | _ => none)
  | _ => none

/-- `PrinterState` (`state.rs` lines 22-41); `last_update` instants are `Nat`. -/
structure PrinterState where
  connected : Bool
  job_state : Option String
  percent : Option Nat
  layer_num : Option Nat
  total_layer_num : Option Nat
  remaining_minutes : Option Nat
  nozzle_c : Option Rat
  nozzle_target_c : Option Rat
  bed_c : Option Rat
  bed_target_c : Option Rat
  chamber_c : Option Rat
  light : Option String
  rtsp_url : Option String
  ams : List AmsUnitState
  last_update : Option Nat
  deriving DecidableEq, Repr

/-- `PrinterState::default()`. -/
def PrinterState.init : PrinterState :=
  ⟨false, none, none, none, none, none, none, none, none, none, none, none,
    none, [], none⟩

/-- The `if let Some(v) = parse { field = Some(v) }` overwrite pattern. -/
def overwrite (new old : Option α) : Option α :=
  match new with
  | some v => some v
  | none => old

/-- `PrinterState::apply_report` (`state.rs` lines 44-137), with the wall clock
passed as `now`. -/
def PrinterState.apply_report (s : PrinterState) (report : Json) (now : Nat) :
    PrinterState :=
  { s with
    job_state :=
      overwrite (read_str (report.pointer "/print/gcode_state".toList))
        s.job_state
    percent :=
      overwrite (read_u8 (report.pointer2 "/print/mc_percent".toList
        "/print/percent".toList)) s.percent
    layer_num :=
      overwrite (read_u32 (report.pointer "/print/layer_num".toList))
        s.layer_num
    total_layer_num :=
      overwrite (read_u32 (report.pointer "/print/total_layer_num".toList))
        s.total_layer_num
    remaining_minutes :=
      overwrite (read_u32 (report.pointer2 "/print/mc_remaining_time".toList
        "/print/remain_time".toList)) s.remaining_minutes
    nozzle_c :=
      overwrite (read_f64 ((report.pointer "/print/nozzle_temper".toList).orElse
        (fun _ => (report.pointer "/temp/nozzle_temper".toList).orElse
          (fun _ => report.pointer "/print/device/extruder/info/0/temp".toList))))
        s.nozzle_c
    nozzle_target_c :=
      overwrite (read_f64
        ((report.pointer "/print/nozzle_target_temper".toList).orElse
          (fun _ => (report.pointer "/temp/nozzle_target_temper".toList).orElse
            (fun _ => report.pointer "/print/device/extruder/info/0/htar".toList))))
        s.nozzle_target_c
    bed_c :=
      overwrite (read_f64 ((report.pointer "/print/bed_temper".toList).orElse
        (fun _ => (report.pointer "/temp/bed_temper".toList).orElse
          (fun _ => report.pointer "/print/device/bed/info/temp".toList))))
        s.bed_c
    bed_target_c :=
      overwrite (read_f64 (report.pointer2 "/print/bed_target_temper".toList
        "/temp/bed_target_temper".toList)) s.bed_target_c
    chamber_c :=
      overwrite (read_f64 ((report.pointer "/print/chamber_temper".toList).orElse
        (fun _ => (report.pointer "/temp/chamber_temper".toList).orElse
          (fun _ => report.pointer "/print/device/ctc/info/temp".toList))))
        s.chamber_c
    light := overwrite (extract_light report) s.light
    rtsp_url :=
      overwrite ((read_str (report.pointer2 "/print/ipcam/rtsp_url".toList
        "/ipcam/rtsp_url".toList)).bind
          (fun url => if url = "" then none else some url)) s.rtsp_url
    ams := (extract_ams report).getD s.ams
    last_update := some now }

/-- Apply the same report `n` times. -/
def PrinterState.applyN (s : PrinterState) (r : Json) (now : Nat) :
    Nat → PrinterState
  | 0 => s
  | n + 1 => (s.apply_report r now).applyN r now n

theorem overwrite_idem (x : Option α) (y : α) :
    overwrite x (overwrite x (some y)) = overwrite x (some y) := by
  cases x <;> rfl

theorem overwrite_overwrite (x y : Option α) :
    overwrite x (overwrite x y) = overwrite x y := by
  cases x <;> rfl

theorem getD_getD (x : Option α) (y : α) : x.getD (x.getD y) = x.getD y := by
  cases x <;> rfl

theorem apply_report_twice (s : PrinterState) (r : Json) (now : Nat) :
    (s.apply_report r now).apply_report r now = s.apply_report r now := by
  simp only [PrinterState.apply_report, overwrite_overwrite, getD_getD]

/-- C5: applying the same report N ≥ 1 times to the default state yields the
same final state as applying it once (field-overwrite semantics; the wall-clock
`last_update` is the explicit `now` argument, identical across the N applies). -/
theorem applyN_fixed (r : Json) (now : Nat) :
    ∀ (m : Nat) (s : PrinterState), s.apply_report r now = s →
      s.applyN r now m = s
  | 0, _, _ => rfl
  | m + 1, s, hfix => by
    show (s.apply_report r now).applyN r now m = s
    rw [hfix]
    exact applyN_fixed r now m s hfix

/-- C5: applying the same report N ≥ 1 times to the default state yields the
same final state as applying it once (field-overwrite semantics; the wall-clock
`last_update` is the explicit `now` argument, identical across the N applies). -/
theorem apply_report_idempotent (r : Json) (now : Nat) (n : Nat) (h : 1 ≤ n) :
    PrinterState.init.applyN r now n = PrinterState.init.apply_report r now := by
  obtain ⟨m, rfl⟩ : ∃ m, n = m + 1 := ⟨n - 1, by omega⟩
  show (PrinterState.init.apply_report r now).applyN r now m = _
  exact applyN_fixed r now m _ (apply_report_twice PrinterState.init r now)

/-- The status-merge scenario report: percent 37 as a numeric string. -/
def percentReport : Json :=
  Json.obj [("print", Json.obj [("mc_percent", Json.str "37")])]

theorem apply_report_idempotent_witness :
    1 ≤ 3 ∧
    PrinterState.init.applyN percentReport 0 3 =
      PrinterState.init.apply_report percentReport 0 :=
  ⟨by decide, apply_report_idempotent percentReport 0 3 (by decide)⟩

/-! ## LL-HLS blocking-reload readiness, from `src/backend/server/src/http.rs` -/

/-- `HashMap::insert` on an association-list model (overwrite on key hit). -/
def amInsert [DecidableEq κ] : List (κ × ν) → κ → ν → List (κ × ν)
  | [], k, v => [(k, v)]
  | p :: rest, k, v =>
    if p.1 = k then (k, v) :: rest else p :: amInsert rest k v

/-- `HashMap::get` on the association-list model. -/
def amGet [DecidableEq κ] (m : List (κ × ν)) (k : κ) : Option ν :=
  (m.find? (fun p => p.1 = k)).map (·.2)

theorem amGet_amInsert [DecidableEq κ] (m : List (κ × ν)) (k k' : κ) (v : ν) :
    amGet (amInsert m k v) k' = if k' = k then some v else amGet m k' := by
  induction m with
  | nil =>
    by_cases h : k' = k
    · subst h
      simp [amInsert, amGet]
    · have hk : ¬(k = k') := fun hh => h hh.symm
      simp [amInsert, amGet, h, hk]
  | cons p rest ih =>
    by_cases hp : p.1 = k
    · simp only [amInsert, if_pos hp]
      by_cases h : k' = k
      · subst h
        simp [amGet]
      · have hk : ¬(k = k') := fun hh => h hh.symm
        have hpk : ¬(p.1 = k') := by rw [hp]; exact hk
        simp [amGet, h, hk, hpk]
    · simp only [amInsert, if_neg hp]
      by_cases hq : p.1 = k'
      · have h : ¬(k' = k) := fun hh => hp (hq.trans hh)
        simp [amGet, hq, h]
      · have hd : (fun q : κ × ν => decide (q.1 = k')) p = false := by
          simp [hq]
        simp only [amGet, List.find?_cons, hd] at ih ⊢
        exact ih

/-- `str::lines()`: split on `\n`, final terminator dropped, trailing `\r`
stripped per line. -/
def linesOf (s : List Char) : List (List Char) :=
  if s = [] then []
  else
    let raw := splitAll '\n' s
    let raw := if raw.getLast? = some [] then raw.dropLast else raw
    raw.map (fun l => if l.getLast? = some '\r' then l.dropLast else l)

/-- `LlPlaylistIndex` (`http.rs` lines 498-504), the HashMap as an
association list. -/
structure LlPlaylistIndex where
  media_sequence : Nat
  parts_by_seq : List (Nat × Nat)
  in_progress_seq : Nat
  in_progress_parts : Nat
  last_complete_seq : Option Nat
  deriving DecidableEq, Repr

/-- The loop state of `parse_ll_playlist` (`http.rs` lines 507-511). -/
structure LlParseSt where
  media_sequence : Option Nat
  current_seq : Nat
  part_count : Nat
  parts_by_seq : List (Nat × Nat)
  last_complete_seq : Option Nat
  deriving DecidableEq, Repr

/-- The line dispatch of the `parse_ll_playlist` loop: empty and `#`-comment
lines (including unparseable media-sequence lines) leave the state unchanged. -/
inductive LlLine where
  | skip
  | mediaSeq (n : Nat)
  | partLine
  | uri
  deriving DecidableEq, Repr

/-- Classify one (trimmed) playlist line as in the loop of `parse_ll_playlist`
(`http.rs` lines 513-538). -/
def classifyLine (line : List Char) : LlLine :=
  let l := trimWs line
  if l = [] then .skip
  else
    match dropLeading "#EXT-X-MEDIA-SEQUENCE:".toList l with
    | some value =>
      match parseU64 (trimWs value) with
      | some parsed => .mediaSeq parsed
      | none => .skip
    | none =>
      if (dropLeading "#EXT-X-PART:".toList l).isSome then .partLine
      else if l.head? = some '#' then .skip
      else .uri

/-- One iteration of the `for line in playlist.lines().map(trim)` loop of
`parse_ll_playlist` (`http.rs` lines 513-538). -/
def llStep (st : LlParseSt) (line : List Char) : LlParseSt :=
  match classifyLine line with
  | .skip => st
  | .mediaSeq parsed =>
    { st with
      media_sequence := some parsed
      current_seq := parsed
      part_count := 0 }
  | .partLine => { st with part_count := satAdd32 st.part_count 1 }
  | .uri =>
    if st.media_sequence.isSome then
      { st with
        parts_by_seq := amInsert st.parts_by_seq st.current_seq st.part_count
        last_complete_seq := some st.current_seq
        current_seq := satAdd64 st.current_seq 1
        part_count := 0 }
    else st

/-- `parse_ll_playlist` (`http.rs` lines 506-548). -/
def parse_ll_playlist (playlist : List Char) : Option LlPlaylistIndex :=
  let fin := (linesOf playlist).foldl llStep ⟨none, 0, 0, [], none⟩
  match fin.media_sequence with
  | none => none
  | some ms =>
    some ⟨ms, fin.parts_by_seq, fin.current_seq, fin.part_count,
      fin.last_complete_seq⟩

/-- `ll_request_ready` (`http.rs` lines 469-496). -/
def ll_request_ready (playlist : List Char) (msn : Nat) (part : Option Nat) :
    Bool :=
  match parse_ll_playlist playlist with
  | none => true
  | some index =>
    if msn < index.media_sequence then true
    else
      match part with
      | none =>
        match index.last_complete_seq with
        | some last_complete => decide (msn ≤ last_complete)
        | none => false
      | some part_index =>
        if msn = index.in_progress_seq then
          decide (part_index < index.in_progress_parts)
        else
          match amGet index.parts_by_seq msn with
          | some count => decide (part_index < count)
          | none => false

/-- Modelled from the spec's words: the scan state when counting the
`#EXT-X-PART` lines the playlist lists for one sequence `M` — scanning from
`#EXT-X-MEDIA-SEQUENCE`, attributing part lines between segment URI lines to
consecutive sequence numbers, the in-progress segment's parts included. -/
structure ScanSt where
  active : Bool
  cur : Nat
  cnt : Nat
  resM : Option Nat
  lastClosed : Option Nat
  deriving DecidableEq, Repr

/-- One line of the spec-side scan for sequence `M`. -/
def scanStep (M : Nat) (st : ScanSt) (line : List Char) : ScanSt :=
  match classifyLine line with
  | .skip => st
  | .mediaSeq parsed =>
    { st with
      active := true
      cur := parsed
      cnt := 0 }
  | .partLine => { st with cnt := satAdd32 st.cnt 1 }
  | .uri =>
    if st.active then
      { st with
        resM := if M = st.cur then some st.cnt else st.resM
        lastClosed := some st.cur
        cur := satAdd64 st.cur 1
        cnt := 0 }
    else st

/-- View of the parse state as the spec-side scan state for sequence `M`. -/
def projectScan (ps : LlParseSt) (M : Nat) : ScanSt :=
  ⟨ps.media_sequence.isSome, ps.current_seq, ps.part_count,
    amGet ps.parts_by_seq M, ps.last_complete_seq⟩

/-- The number of `#EXT-X-PART` lines the playlist lists for sequence `M`,
per the claim's scanning description. -/
def specListedParts (playlist : List Char) (M : Nat) : Nat :=
  let fin := (linesOf playlist).foldl (scanStep M) ⟨false, 0, 0, none, none⟩
  if fin.active ∧ M = fin.cur then fin.cnt else fin.resM.getD 0

/-- The last fully completed sequence of the playlist, per the same scan. -/
def specLastCompleted (playlist : List Char) : Option Nat :=
  let fin := (linesOf playlist).foldl (scanStep 0) ⟨false, 0, 0, none, none⟩
  fin.lastClosed

theorem scanStep_project (M : Nat) (ps : LlParseSt) (line : List Char) :
    scanStep M (projectScan ps M) line = projectScan (llStep ps line) M := by
  unfold scanStep llStep
  cases classifyLine line with
  | skip => rfl
  | mediaSeq parsed => rfl
  | partLine => rfl
  | uri =>
    show (if (projectScan ps M).active then _ else _) = _
    by_cases hact : ps.media_sequence.isSome = true
    · rw [if_pos (show (projectScan ps M).active = true from hact),
        if_pos hact]
      simp only [projectScan, amGet_amInsert]
    · rw [if_neg (show ¬(projectScan ps M).active = true from hact),
        if_neg hact]

theorem scan_fold_project (M : Nat) :
    ∀ (ls : List (List Char)) (ps : LlParseSt),
      ls.foldl (scanStep M) (projectScan ps M) =
        projectScan (ls.foldl llStep ps) M
  | [], _ => rfl
  | line :: rest, ps => by
    simp only [List.foldl_cons, scanStep_project]
    exact scan_fold_project M rest (llStep ps line)

/-- C8: for a playlist that parses (has a `#EXT-X-MEDIA-SEQUENCE` tag), the
blocking-reload readiness predicate returns true iff — with `_HLS_part=P`
present — the playlist lists at least P+1 `#EXT-X-PART` lines for sequence M
(counted by scanning from `#EXT-X-MEDIA-SEQUENCE` between segment URI lines,
the in-progress segment included) or M precedes the media sequence; and — with
P absent — iff M is at most the last fully completed sequence or M precedes
the media sequence. -/
theorem ll_request_ready_spec (playlist : List Char) (msn : Nat)
    (part : Option Nat) (idx : LlPlaylistIndex)
    (hparse : parse_ll_playlist playlist = some idx) :
    (ll_request_ready playlist msn part = true ↔
      (match part with
        | some p => p + 1 ≤ specListedParts playlist msn ∨
            msn < idx.media_sequence
        | none => (∃ lc, specLastCompleted playlist = some lc ∧ msn ≤ lc) ∨
            msn < idx.media_sequence)) := by
  have hproj := scan_fold_project msn (linesOf playlist) ⟨none, 0, 0, [], none⟩
  have hproj0 := scan_fold_project 0 (linesOf playlist) ⟨none, 0, 0, [], none⟩
  unfold parse_ll_playlist at hparse
  rcases hfin : ((linesOf playlist).foldl llStep ⟨none, 0, 0, [], none⟩) with
    ⟨msq, cseq, pcnt, pbs, lcs⟩
  rw [hfin] at hparse hproj hproj0
  rcases msq with _ | ms
  · exact absurd hparse (by simp)
  simp only [Option.some.injEq] at hparse
  obtain rfl : idx = ⟨ms, pbs, cseq, pcnt, lcs⟩ := hparse.symm
  have hlisted : specListedParts playlist msn =
      if msn = cseq then pcnt else (amGet pbs msn).getD 0 := by
    unfold specListedParts
    have : projectScan ⟨none, 0, 0, [], none⟩ msn = ⟨false, 0, 0, none, none⟩ :=
      rfl
    rw [← this, hproj]
    simp [projectScan]
  have hlast : specLastCompleted playlist = lcs := by
    unfold specLastCompleted
    have h00 : projectScan ⟨none, 0, 0, [], none⟩ 0 = ⟨false, 0, 0, none, none⟩ :=
      rfl
    rw [← h00, hproj0]
    rfl
  unfold ll_request_ready parse_ll_playlist
  rw [hfin]
  simp only []
  by_cases hlt : msn < ms
  · simp only [if_pos hlt]
    rcases part with _ | p <;> simp [hlt]
  · simp only [if_neg hlt]
    rcases part with _ | p
    · rcases lcs with _ | lc
      · simp [hlast, hlt]
      · simp only [hlast]
        constructor
        · intro h
          exact Or.inl ⟨lc, rfl, by simpa using h⟩
        · rintro (⟨lc', hlc', hle⟩ | h)
          · simp only [Option.some.injEq] at hlc'
            subst hlc'
            simpa using hle
          · exact absurd h hlt
    · rw [hlisted]
      by_cases hip : msn = cseq
      · simp only [if_pos hip]
        constructor
        · intro h
          exact Or.inl (by simpa using h)
        · rintro (h | h)
          · simpa using h
          · exact absurd h hlt
      · simp only [if_neg hip]
        rcases hg : amGet pbs msn with _ | count
        · simp only [Option.getD_none]
          constructor
          · intro h
            simp at h
          · rintro (h | h)
            · omega
            · exact absurd h hlt
        · simp only [Option.getD_some]
          constructor
          · intro h
            exact Or.inl (by simpa using h)
          · rintro (h | h)
            · simpa using h
            · exact absurd h hlt

/-- The witness playlist: media sequence 10, two parts for sequence 10, one
in-progress part for sequence 11. -/
def wPlaylist : List Char :=
  ("#EXTM3U\n#EXT-X-MEDIA-SEQUENCE:10\n#EXT-X-PART:DURATION=0.3\n" ++
    "#EXT-X-PART:DURATION=0.3\nseg000010.m4s\n#EXT-X-PART:DURATION=0.3\n").toList

theorem ll_request_ready_spec_witness :
    parse_ll_playlist wPlaylist = some ⟨10, [(10, 2)], 11, 1, some 10⟩ ∧
    (ll_request_ready wPlaylist 10 (some 1) = true ↔
      (1 + 1 ≤ specListedParts wPlaylist 10 ∨ 10 < 10)) ∧
    ll_request_ready wPlaylist 10 (some 1) = true := by
  refine ⟨by decide, ?_, by decide⟩
  exact ll_request_ready_spec wPlaylist 10 (some 1) ⟨10, [(10, 2)], 11, 1, some 10⟩
    (by decide)

/-! ## CMAF segmenter, from `src/backend/server/src/rtsp/cmaf.rs`

File I/O is modelled by a ghost `fileLen` field on the segment buffer: every
`write_all` of a part appends exactly its bytes, so `fileLen` is the byte
length of the segment file. The `f64` durations are unnormalized rationals
(`Q` below, exact for the arithmetic the segmenter performs); u32/u64
arithmetic carries the source's wrapping/saturating behaviour. -/

/-- An unnormalized rational (numerator, positive denominator), modelling the
finite `f64` duration values of the segmenter exactly. -/
structure Q where
  num : Int
  den : Nat
  deriving DecidableEq, Repr

/-- Comparison by cross-multiplication (denominators positive). -/
def Q.le (a b : Q) : Bool := decide (a.num * (b.den : Int) ≤ b.num * (a.den : Int))

/-- `f64` multiplication on the rational model. -/
def Q.mul (a b : Q) : Q := ⟨a.num * b.num, a.den * b.den⟩

/-- `f64::max`. -/
def Q.qmax (a b : Q) : Q := if Q.le a b then b else a

/-- `f64::min`. -/
def Q.qmin (a b : Q) : Q := if Q.le a b then a else b

/-- `(delta as f64) / 90_000.0` for a `Nat` tick delta. -/
def natDiv90k (delta : Nat) : Q := ⟨delta, 90000⟩

/-- `SAMPLE_FLAG_SYNC` (`cmaf.rs` line 455). -/
def SAMPLE_FLAG_SYNC : Nat := 0x02000000

/-- `SAMPLE_FLAG_NON_SYNC` (`cmaf.rs` line 456). -/
def SAMPLE_FLAG_NON_SYNC : Nat := 0x01010000

/-- `write_u16` (`cmaf.rs` lines 802-804): big-endian bytes. -/
def write_u16 (v : Nat) : List Nat := [v / 256 % 256, v % 256]

/-- `write_u32` (`cmaf.rs` lines 806-808). -/
def write_u32 (v : Nat) : List Nat :=
  [v / 16777216 % 256, v / 65536 % 256, v / 256 % 256, v % 256]

/-- `write_u64` (`cmaf.rs` lines 810-812). -/
def write_u64 (v : Nat) : List Nat :=
  write_u32 (v / U32MOD % U32MOD) ++ write_u32 (v % U32MOD)

/-- A four-character box tag as bytes. -/
def tagBytes (s : String) : List Nat := s.toList.map Char.toNat

/-- `make_box` (`cmaf.rs` lines 781-788). -/
def make_box (tag : String) (payload : List Nat) : List Nat :=
  write_u32 ((payload.length + 8) % U32MOD) ++ tagBytes tag ++ payload

/-- `build_avc_sample` (`cmaf.rs` lines 458-466): 4-byte big-endian NAL length
prefixes. -/
def build_avc_sample (nals : List (List Nat)) : List Nat :=
  (nals.map (fun nal => write_u32 (nal.length % U32MOD) ++ nal)).flatten

/-- `build_styp` (`cmaf.rs` lines 547-557). -/
def build_styp : List Nat :=
  make_box "styp" (tagBytes "msdh" ++ write_u32 0 ++ tagBytes "msdh" ++
    tagBytes "msix" ++ tagBytes "iso6" ++ tagBytes "avc1" ++ tagBytes "cmfc")

/-- `build_mdat` (`cmaf.rs` lines 519-525). -/
def build_mdat (samples : List (List Nat)) : List Nat :=
  make_box "mdat" samples.flatten

/-- `build_moof` (`cmaf.rs` lines 468-517). -/
def build_moof (sequence base_decode_time : Nat)
    (sample_durations sample_sizes sample_flags : List Nat) : List Nat :=
  let sample_count := sample_durations.length % U32MOD
  let trun_size := 20 + sample_durations.length * 12
  let traf_size := 8 + 16 + 20 + trun_size
  let moof_size := 8 + 16 + traf_size
  let trun := write_u32 (0x000001 ||| 0x000100 ||| 0x000200 ||| 0x000400) ++
    write_u32 sample_count ++ write_u32 ((moof_size + 8) % U32MOD) ++
    ((sample_durations.zip (sample_sizes.zip sample_flags)).map
      (fun p => write_u32 p.1 ++ write_u32 p.2.1 ++ write_u32 p.2.2)).flatten
  let trun_box := make_box "trun" trun
  let tfhd_box := make_box "tfhd" (write_u32 0x020000 ++ write_u32 1)
  let tfdt_box := make_box "tfdt" (write_u32 0x01000000 ++
    write_u64 (base_decode_time % U64MOD))
  let traf_box := make_box "traf" (tfhd_box ++ tfdt_box ++ trun_box)
  let mfhd_box := make_box "mfhd" (write_u32 0 ++ write_u32 (sequence % U32MOD))
  make_box "moof" (mfhd_box ++ traf_box)

/-- `f64 as u32` saturating cast, on the rational model. -/
def satCastU32 (q : Q) : Nat :=
  if q.num < 0 then 0 else min (q.num.toNat / q.den) (U32MOD - 1)

/-- `PartInfo` (`cmaf.rs` lines 36-43). -/
structure PartInfo where
  index : Nat
  duration : Q
  byte_start : Nat
  byte_length : Nat
  independent : Bool
  deriving DecidableEq, Repr

/-- `SegmentInfo` (`cmaf.rs` lines 28-34). -/
structure SegmentInfo where
  seq : Nat
  duration : Q
  filename : String
  parts : List PartInfo
  deriving DecidableEq, Repr

/-- `Sample` (`cmaf.rs` lines 62-67). -/
structure Sample where
  pts90k : Nat
  is_idr : Bool
  nals : List (List Nat)
  deriving DecidableEq, Repr

/-- `SegmentBuffer` (`cmaf.rs` lines 45-60); the `fs::File` handle is replaced
by the ghost `fileLen`, the number of bytes written to the segment file. -/
structure SegmentBuffer where
  seq : Nat
  start_pts : Nat
  last_pts : Nat
  frames : Nat
  filename : String
  fileLen : Nat
  bytes_written : Nat
  parts : List PartInfo
  part_index : Nat
  part_start_pts : Nat
  part_start_byte : Nat
  part_samples : List Sample
  part_independent : Bool
  deriving DecidableEq, Repr

/-- `CmafSegmenter` (`cmaf.rs` lines 10-26); the output directory and the
broadcast stream are external. -/
structure CmafSegmenter where
  target_duration : Q
  window : Nat
  sequence : Nat
  segments : List SegmentInfo
  current : Option SegmentBuffer
  sps : Option (List Nat)
  pps : Option (List Nat)
  last_init_sps : Option (List Nat)
  last_init_pps : Option (List Nat)
  part_duration : Q
  last_sample_duration : Option Nat
  fragment_sequence : Nat
  deriving Repr

/-- Left-pad with zeros to width 6, for `format!("seg{:06}.m4s", seq)`. -/
def padZeros6 (s : String) : String :=
  String.mk (List.replicate (6 - s.length) '0') ++ s

/-- The segment filename of `start_segment` (`cmaf.rs` line 181). -/
def segFilename (seq : Nat) : String :=
  "seg" ++ padZeros6 (Nat.repr seq) ++ ".m4s"

/-- `CmafSegmenter::new` (`cmaf.rs` lines 70-101): resolve the part duration
(non-finite or non-positive falls back to the target, then clamp to
[0.1, max(target, 0.1)]). -/
def CmafSegmenter.new (target_duration : Q) (window : Nat)
    (part_duration : Option Q) : CmafSegmenter :=
  let resolved := match part_duration with
    | some q => if Q.le q ⟨0, 1⟩ then target_duration else q
    | none => target_duration
  let min_part : Q := ⟨1, 10⟩
  let max_part := Q.qmax target_duration min_part
  let resolved := Q.qmin (Q.qmax resolved min_part) max_part
  ⟨target_duration, window, 0, [], none, none, none, none, none, resolved,
    none, 1⟩

/-- `CmafSegmenter::set_parameter_sets` (`cmaf.rs` lines 103-106). -/
def CmafSegmenter.set_parameter_sets (st : CmafSegmenter)
    (sps pps : List Nat) : CmafSegmenter :=
  { st with sps := some sps, pps := some pps }

/-- The state effect of `write_init_if_needed` (`cmaf.rs` lines 423-448); the
emitted `init.mp4` bytes go to the file system and broadcast stream, which are
external to the segment accounting. -/
def write_init_if_needed (st : CmafSegmenter) : CmafSegmenter :=
  match st.sps, st.pps with
  | some sps, some pps =>
    if st.last_init_sps = some sps ∧ st.last_init_pps = some pps then st
    else { st with last_init_sps := some sps, last_init_pps := some pps }
  | _, _ => st

/-- The duration loop of `compute_sample_durations` (`cmaf.rs` lines 280-305);
`n` is the total sample count (for the `samples.len() > 1` check). -/
def durLoop (lsd : Option Nat) (pd : Q) (n : Nat) :
    List Nat → Nat → List Sample → List Nat × Nat
  | durAcc, total, [] => (durAcc, total)
  | durAcc, total, [_] =>
    let duration := lsd.getD
      (if 1 < n then (durAcc.getLast?).getD 3000
        else satCastU32 (Q.mul pd ⟨90000, 1⟩))
    (durAcc ++ [max duration 1], (total + duration) % U64MOD)
  | durAcc, total, s1 :: s2 :: rest =>
    let duration := if s1.pts90k < s2.pts90k
      then (s2.pts90k - s1.pts90k) % U32MOD
      else lsd.getD 3000
    durLoop lsd pd n (durAcc ++ [max duration 1]) ((total + duration) % U64MOD)
      (s2 :: rest)

/-- `compute_sample_durations` (`cmaf.rs` lines 280-305). -/
def computeSampleDurations (lsd : Option Nat) (pd : Q)
    (samples : List Sample) : List Nat × Nat :=
  durLoop lsd pd samples.length [] 0 samples

/-- `CmafSegmenter::flush_part` (`cmaf.rs` lines 202-278): build
`styp+moof+mdat`, append it to the segment file, and record the `PartInfo`
with `byte_start` = the pre-write `part_start_byte`. -/
def flush_part (st : CmafSegmenter) (cur : SegmentBuffer) :
    CmafSegmenter × SegmentBuffer :=
  if cur.part_samples = [] then (st, cur)
  else
    let samples := cur.part_samples
    let durTotal := computeSampleDurations st.last_sample_duration
      st.part_duration samples
    let durations := durTotal.1
    let total_duration_90k := durTotal.2
    let sample_datas := samples.map (fun s => build_avc_sample s.nals)
    let sample_sizes := sample_datas.map (fun d => d.length % U32MOD)
    let sample_flags := samples.map
      (fun s => if s.is_idr then SAMPLE_FLAG_SYNC else SAMPLE_FLAG_NON_SYNC)
    let st := { st with last_sample_duration := durations.getLast? }
    let sequence := st.fragment_sequence
    let st := { st with fragment_sequence := (st.fragment_sequence + 1) % U32MOD }
    let moof := build_moof sequence cur.part_start_pts durations sample_sizes
      sample_flags
    let part_bytes := build_styp ++ moof ++ build_mdat sample_datas
    let byte_start := cur.part_start_byte
    let byte_length := part_bytes.length % U64MOD
    let duration : Q := natDiv90k total_duration_90k
    let newPart : PartInfo :=
      ⟨cur.part_index, Q.qmax duration ⟨1, 1000⟩, byte_start, byte_length,
        cur.part_independent⟩
    let cur := { cur with
      part_samples := []
      fileLen := cur.fileLen + part_bytes.length
      bytes_written := satAdd64 cur.bytes_written byte_length
      parts := cur.parts ++ [newPart]
      part_index := satAdd32 cur.part_index 1
      part_independent := false }
    (st, { cur with part_start_byte := cur.bytes_written })

/-- `CmafSegmenter::start_segment` (`cmaf.rs` lines 178-200). -/
def start_segment (st : CmafSegmenter) (pts90k : Nat) : CmafSegmenter :=
  let seq := st.sequence
  let st := { st with sequence := (st.sequence + 1) % U64MOD }
  let buf : SegmentBuffer :=
    ⟨seq, pts90k, pts90k, 0, segFilename seq, 0, 0, [], 0, pts90k, 0, [], true⟩
  { st with current := some buf }

/-- The `while self.segments.len() > self.window` trim of
`finalize_segment_buffer` (`cmaf.rs` lines 330-335). -/
def trimWindow (window : Nat) : List SegmentInfo → List SegmentInfo
  | [] => []
  | seg :: rest =>
    if window < (seg :: rest).length then trimWindow window rest
    else seg :: rest

/-- `CmafSegmenter::finalize_segment_buffer` (`cmaf.rs` lines 307-339),
returning the produced `SegmentInfo` with its ghost file length. -/
def finalize_segment_buffer (st : CmafSegmenter) (cur : SegmentBuffer) :
    CmafSegmenter × (SegmentInfo × Nat) :=
  let flushed := flush_part st cur
  let st := flushed.1
  let cur := flushed.2
  let duration : Q := if cur.start_pts < cur.last_pts
    then natDiv90k (cur.last_pts - cur.start_pts)
    else ⟨1, 10⟩
  let info : SegmentInfo := ⟨cur.seq, duration, cur.filename, cur.parts⟩
  let st := { st with segments := trimWindow st.window (st.segments ++ [info]) }
  (st, (info, cur.fileLen))

/-- The body of `CmafSegmenter::push_access_unit` after the segment-ensure
step (`cmaf.rs` lines 120-167): segment-boundary check, part reset, part
flush, and sample append, with `cur0` the current segment buffer. -/
def push_core (st : CmafSegmenter) (cur0 : SegmentBuffer) (au : AccessUnit)
    (pts : Nat) : CmafSegmenter × List (SegmentInfo × Nat) :=
      let stepped : CmafSegmenter × SegmentBuffer × List (SegmentInfo × Nat) :=
        if Q.le st.target_duration (natDiv90k (pts - cur0.start_pts)) ∧
            au.is_idr = true then
          let flushed := flush_part st cur0
          let fin := finalize_segment_buffer flushed.1 flushed.2
          let st := start_segment fin.1 pts
          match st.current with
          | some cur2 => ({ st with current := none }, cur2, [fin.2])
          | none => (st, cur0, [fin.2])
        else (st, cur0, [])
      let st := stepped.1
      let cur := stepped.2.1
      let produced := stepped.2.2
      let cur := if cur.part_samples = [] then
          { cur with
            part_start_pts := pts
            part_start_byte := cur.bytes_written
            part_independent := au.is_idr }
        else cur
      let partStep : CmafSegmenter × SegmentBuffer :=
        if 0 < cur.part_samples.length ∧
            Q.le st.part_duration (natDiv90k (pts - cur.part_start_pts))
        then
          let flushed := flush_part st cur
          (flushed.1,
            { flushed.2 with
              part_start_pts := pts
              part_start_byte := flushed.2.bytes_written
              part_independent := au.is_idr })
        else (st, cur)
      let st := partStep.1
      let cur := partStep.2
      let cur := { cur with
        last_pts := pts
        frames := satAdd64 cur.frames 1
        part_samples := cur.part_samples ++ [⟨pts, au.is_idr, au.nals⟩] }
      ({ st with current := some cur }, produced)

/-- `CmafSegmenter::push_access_unit` (`cmaf.rs` lines 112-168), returning the
finalized segment (with ghost file length) when a target-duration boundary is
crossed. -/
def push_access_unit (st0 : CmafSegmenter) (au : AccessUnit) (pts : Nat) :
    CmafSegmenter × List (SegmentInfo × Nat) :=
  let st := write_init_if_needed st0
  let ensured : CmafSegmenter × Bool :=
    match st.current with
    | none => if au.is_idr then (start_segment st pts, true) else (st, false)
    | some _ => (st, true)
  if ensured.2 = false then (ensured.1, [])
  else
    match ensured.1.current with
    | none => (ensured.1, [])
    | some cur0 => push_core { ensured.1 with current := none } cur0 au pts

/-- `CmafSegmenter::finalize_segment` (`cmaf.rs` lines 170-176). -/
def finalize_segment (st : CmafSegmenter) :
    CmafSegmenter × List (SegmentInfo × Nat) :=
  match st.current with
  | none => (st, [])
  | some cur =>
    let fin := finalize_segment_buffer { st with current := none } cur
    (fin.1, [fin.2])

/-- A segmenter operation: push one access unit at a PTS, or finalize. -/
inductive CmafOp where
  | push (au : AccessUnit) (pts : Nat)
  | fin
  deriving Repr

/-- Run a sequence of operations, collecting every produced segment together
with its ghost file length. -/
def CmafSegmenter.runOps (st : CmafSegmenter) :
    List CmafOp → CmafSegmenter × List (SegmentInfo × Nat)
  | [] => (st, [])
  | op :: rest =>
    let step := match op with
      | .push au pts => push_access_unit st au pts
      | .fin => finalize_segment st
    let tail := CmafSegmenter.runOps step.1 rest
    (tail.1, step.2 ++ tail.2)

/-- The parts tile `[start, len)` contiguously: each part begins where the
previous ended and the last ends at `len`. -/
def partsTileFrom (start : Nat) : List PartInfo → Nat → Bool
  | [], len => start == len
  | p :: rest, len =>
    (p.byte_start == start) && partsTileFrom (p.byte_start + p.byte_length) rest len

/-- The recorded parts tile the file's bytes `[0, len)` with no gaps and no
overlaps: part 0 starts at byte 0, `byte_start + byte_length` of each part is
the next part's `byte_start`, and the last part ends at `len`. -/
def partsTile (parts : List PartInfo) (len : Nat) : Bool :=
  partsTileFrom 0 parts len

/-- The segment-buffer bookkeeping invariant: the next part starts where the
byte counter stands, and — as long as the ghost file length has not reached
the u64 saturation bound — the byte counter equals the file length and the
recorded parts tile the bytes written so far. -/
def BufInv (cur : SegmentBuffer) : Prop :=
  cur.part_start_byte = cur.bytes_written ∧
  (cur.fileLen < U64MOD →
    cur.bytes_written = cur.fileLen ∧ partsTile cur.parts cur.fileLen = true)

/-- The segmenter invariant: any current segment buffer satisfies `BufInv`. -/
def SegInv (st : CmafSegmenter) : Prop :=
  ∀ cur, st.current = some cur → BufInv cur

/-- Appending a part that begins exactly where the tiled prefix ends extends
the tiling to the end of the new part. -/
theorem partsTileFrom_append (p : PartInfo) :
    ∀ (parts : List PartInfo) (start e : Nat),
      partsTileFrom start parts e = true → p.byte_start = e →
      partsTileFrom start (parts ++ [p]) (p.byte_start + p.byte_length) =
        true := by
  intro parts
  induction parts with
  | nil =>
    intro start e h hp
    simp only [partsTileFrom, beq_iff_eq] at h
    subst h
    subst hp
    simp [partsTileFrom]
  | cons q rest ih =>
    intro start e h hp
    simp only [List.cons_append, partsTileFrom, Bool.and_eq_true,
      beq_iff_eq] at h ⊢
    exact ⟨h.1, ih _ _ h.2 hp⟩

/-- `flush_part` leaves `current` untouched (it only updates
`last_sample_duration` and `fragment_sequence` on the segmenter). -/
theorem flush_part_current (st : CmafSegmenter) (cur : SegmentBuffer) :
    (flush_part st cur).1.current = st.current := by
  unfold flush_part
  split <;> rfl

/-- The effect of a nonempty part flush on the buffer preserves `BufInv`:
the new part starts at the old byte counter, its recorded length is the
(mod-u64) length of the written bytes, and both counters advance by it. -/
theorem bufAppend_inv (cur : SegmentBuffer) (idx : Nat) (d : Q) (L : Nat)
    (h1 : cur.part_start_byte = cur.bytes_written)
    (h2 : cur.fileLen < U64MOD →
      cur.bytes_written = cur.fileLen ∧ partsTile cur.parts cur.fileLen = true) :
    BufInv { cur with
      part_samples := []
      fileLen := cur.fileLen + L
      bytes_written := satAdd64 cur.bytes_written (L % U64MOD)
      parts := cur.parts ++
        [⟨idx, d, cur.part_start_byte, L % U64MOD, cur.part_independent⟩]
      part_index := satAdd32 cur.part_index 1
      part_independent := false
      part_start_byte := satAdd64 cur.bytes_written (L % U64MOD) } := by
  unfold partsTile at h2
  unfold BufInv partsTile
  refine ⟨rfl, ?_⟩
  intro hlen
  dsimp only at hlen ⊢
  have hfl : cur.fileLen < U64MOD := by omega
  obtain ⟨hbw, htile⟩ := h2 hfl
  have hLmod : L % U64MOD = L := Nat.mod_eq_of_lt (by omega)
  constructor
  · unfold satAdd64
    rw [hLmod, hbw]
    unfold U64MOD at hlen ⊢
    omega
  · have hp : (⟨idx, d, cur.part_start_byte, L % U64MOD,
        cur.part_independent⟩ : PartInfo).byte_start = cur.fileLen :=
      h1.trans hbw
    have hc := partsTileFrom_append
      ⟨idx, d, cur.part_start_byte, L % U64MOD, cur.part_independent⟩
      cur.parts 0 cur.fileLen htile hp
    rw [show cur.fileLen + L = cur.part_start_byte + L % U64MOD from by
      rw [hLmod, h1, hbw]]
    exact hc

/-- A part flush preserves the segment-buffer invariant. -/
theorem flush_part_buf (st : CmafSegmenter) (cur : SegmentBuffer)
    (h : BufInv cur) : BufInv (flush_part st cur).2 := by
  unfold flush_part
  split
  · exact h
  · exact bufAppend_inv cur _ _ _ h.1 h.2

/-- A freshly started segment buffer satisfies the invariant. -/
theorem BufInv_fresh (seq pts : Nat) (f : String) :
    BufInv ⟨seq, pts, pts, 0, f, 0, 0, [], 0, pts, 0, [], true⟩ :=
  ⟨rfl, fun _ => ⟨rfl, rfl⟩⟩

/-- Resetting the part-start bookkeeping to the current byte counter
preserves the invariant. -/
theorem BufInv_reset (cur : SegmentBuffer) (pts : Nat) (b : Bool)
    (h : BufInv cur) :
    BufInv { cur with
      part_start_pts := pts
      part_start_byte := cur.bytes_written
      part_independent := b } :=
  ⟨rfl, h.2⟩

/-- Appending a sample to the in-progress part preserves the invariant. -/
theorem BufInv_sample (cur : SegmentBuffer) (pts : Nat) (s : Sample)
    (h : BufInv cur) :
    BufInv { cur with
      last_pts := pts
      frames := satAdd64 cur.frames 1
      part_samples := cur.part_samples ++ [s] } :=
  ⟨h.1, h.2⟩

/-- Flushing the in-progress part and resetting the part-start bookkeeping
preserves the invariant. -/
theorem BufInv_flushreset (st : CmafSegmenter) (cur : SegmentBuffer)
    (pts : Nat) (b : Bool) (h : BufInv cur) :
    BufInv { (flush_part st cur).2 with
      part_start_pts := pts
      part_start_byte := (flush_part st cur).2.bytes_written
      part_independent := b } :=
  ⟨rfl, (flush_part_buf st cur h).2⟩

/-- `finalize_segment_buffer` leaves `current` untouched. -/
theorem finalize_segment_buffer_current (st : CmafSegmenter)
    (cur : SegmentBuffer) :
    (finalize_segment_buffer st cur).1.current = st.current := by
  unfold finalize_segment_buffer
  dsimp only
  exact flush_part_current st cur

/-- From a buffer satisfying the invariant, `finalize_segment_buffer`
produces a segment whose parts tile its file's bytes, provided the file
length stayed below the u64 saturation bound. -/
theorem finalize_segment_buffer_tile (st : CmafSegmenter)
    (cur : SegmentBuffer) (h : BufInv cur)
    (hlen : (finalize_segment_buffer st cur).2.2 < U64MOD) :
    partsTile (finalize_segment_buffer st cur).2.1.parts
      (finalize_segment_buffer st cur).2.2 = true := by
  have hb := flush_part_buf st cur h
  unfold finalize_segment_buffer at hlen ⊢
  dsimp only at hlen ⊢
  exact (hb.2 hlen).2

/-- `write_init_if_needed` leaves `current` untouched. -/
theorem write_init_current (st : CmafSegmenter) :
    (write_init_if_needed st).current = st.current := by
  unfold write_init_if_needed
  split
  · split <;> rfl
  · rfl

/-- The push core preserves the invariant of the (re-installed) current
buffer and only emits tiling segments. -/
theorem push_core_inv (st : CmafSegmenter) (cur0 : SegmentBuffer)
    (au : AccessUnit) (pts : Nat) (h : BufInv cur0) :
    (∀ cur, (push_core st cur0 au pts).1.current = some cur → BufInv cur) ∧
    ∀ x ∈ (push_core st cur0 au pts).2, x.2 < U64MOD →
      partsTile x.1.parts x.2 = true := by
  unfold push_core
  dsimp only
  split
  · -- target-duration boundary crossed on an IDR: flush, finalize, restart
    dsimp only [start_segment]
    split
    · split
      · refine ⟨?_, ?_⟩
        · intro cur hc
          injection hc with hc
          subst hc
          exact BufInv_sample _ _ _
            (BufInv_flushreset _ _ _ _ (BufInv_reset _ _ _ (BufInv_fresh _ _ _)))
        · intro x hx
          simp only [List.mem_singleton] at hx
          subst hx
          intro hlen
          exact finalize_segment_buffer_tile _ _ (flush_part_buf _ _ h) hlen
      · refine ⟨?_, ?_⟩
        · intro cur hc
          injection hc with hc
          subst hc
          exact BufInv_sample _ _ _ (BufInv_reset _ _ _ (BufInv_fresh _ _ _))
        · intro x hx
          simp only [List.mem_singleton] at hx
          subst hx
          intro hlen
          exact finalize_segment_buffer_tile _ _ (flush_part_buf _ _ h) hlen
    · split
      · refine ⟨?_, ?_⟩
        · intro cur hc
          injection hc with hc
          subst hc
          exact BufInv_sample _ _ _
            (BufInv_flushreset _ _ _ _ (BufInv_fresh _ _ _))
        · intro x hx
          simp only [List.mem_singleton] at hx
          subst hx
          intro hlen
          exact finalize_segment_buffer_tile _ _ (flush_part_buf _ _ h) hlen
      · refine ⟨?_, ?_⟩
        · intro cur hc
          injection hc with hc
          subst hc
          exact BufInv_sample _ _ _ (BufInv_fresh _ _ _)
        · intro x hx
          simp only [List.mem_singleton] at hx
          subst hx
          intro hlen
          exact finalize_segment_buffer_tile _ _ (flush_part_buf _ _ h) hlen
  · -- no segment boundary: stay on the current buffer
    split
    · split
      · refine ⟨?_, ?_⟩
        · intro cur hc
          injection hc with hc
          subst hc
          exact BufInv_sample _ _ _
            (BufInv_flushreset _ _ _ _ (BufInv_reset _ _ _ h))
        · intro x hx
          simp at hx
      · refine ⟨?_, ?_⟩
        · intro cur hc
          injection hc with hc
          subst hc
          exact BufInv_sample _ _ _ (BufInv_reset _ _ _ h)
        · intro x hx
          simp at hx
    · split
      · refine ⟨?_, ?_⟩
        · intro cur hc
          injection hc with hc
          subst hc
          exact BufInv_sample _ _ _ (BufInv_flushreset _ _ _ _ h)
        · intro x hx
          simp at hx
      · refine ⟨?_, ?_⟩
        · intro cur hc
          injection hc with hc
          subst hc
          exact BufInv_sample _ _ _ h
        · intro x hx
          simp at hx

/-- `push_access_unit` preserves the segmenter invariant and only emits
tiling segments. -/
theorem push_access_unit_inv (st0 : CmafSegmenter) (au : AccessUnit)
    (pts : Nat) (h : SegInv st0) :
    SegInv (push_access_unit st0 au pts).1 ∧
    ∀ x ∈ (push_access_unit st0 au pts).2, x.2 < U64MOD →
      partsTile x.1.parts x.2 = true := by
  unfold push_access_unit
  dsimp only
  rw [write_init_current]
  cases hc : st0.current with
  | none =>
    dsimp only
    cases hidr : au.is_idr with
    | false =>
      simp only [Bool.false_eq_true, if_false, eq_self_iff_true, if_true]
      refine ⟨?_, ?_⟩
      · intro cur hcc
        rw [write_init_current, hc] at hcc
        cases hcc
      · intro x hx
        simp at hx
    | true =>
      simp only [eq_self_iff_true, if_true, Bool.true_eq_false, if_false]
      dsimp only [start_segment]
      exact push_core_inv _ _ au pts (BufInv_fresh _ _ _)
  | some cur0 =>
    dsimp only
    simp only [Bool.true_eq_false, if_false]
    rw [write_init_current, hc]
    dsimp only
    exact push_core_inv _ _ au pts (h cur0 hc)

/-- `finalize_segment` preserves the segmenter invariant and only emits
tiling segments. -/
theorem finalize_segment_inv (st : CmafSegmenter) (h : SegInv st) :
    SegInv (finalize_segment st).1 ∧
    ∀ x ∈ (finalize_segment st).2, x.2 < U64MOD →
      partsTile x.1.parts x.2 = true := by
  unfold finalize_segment
  cases hc : st.current with
  | none =>
    exact ⟨h, by simp⟩
  | some cur =>
    dsimp only
    refine ⟨?_, ?_⟩
    · intro c hcc
      rw [finalize_segment_buffer_current] at hcc
      cases hcc
    · intro x hx
      simp only [List.mem_singleton] at hx
      subst hx
      intro hlen
      exact finalize_segment_buffer_tile _ _ (h cur hc) hlen

/-- Running any sequence of operations from an invariant state preserves the
invariant and only emits tiling segments. -/
theorem runOps_inv (ops : List CmafOp) : ∀ st : CmafSegmenter, SegInv st →
    SegInv (CmafSegmenter.runOps st ops).1 ∧
    ∀ x ∈ (CmafSegmenter.runOps st ops).2, x.2 < U64MOD →
      partsTile x.1.parts x.2 = true := by
  induction ops with
  | nil =>
    intro st h
    exact ⟨h, by simp [CmafSegmenter.runOps]⟩
  | cons op rest ih =>
    intro st h
    cases op with
    | push au pts =>
      have hstep := push_access_unit_inv st au pts h
      have htail := ih (push_access_unit st au pts).1 hstep.1
      unfold CmafSegmenter.runOps
      dsimp only
      refine ⟨htail.1, ?_⟩
      intro x hx
      rcases List.mem_append.mp hx with hx | hx
      · exact hstep.2 x hx
      · exact htail.2 x hx
    | fin =>
      have hstep := finalize_segment_inv st h
      have htail := ih (finalize_segment st).1 hstep.1
      unfold CmafSegmenter.runOps
      dsimp only
      refine ⟨htail.1, ?_⟩
      intro x hx
      rcases List.mem_append.mp hx with hx | hx
      · exact hstep.2 x hx
      · exact htail.2 x hx

/-- **C3.** For every segment produced by the CMAF segmenter over any
sequence of `push_access_unit` / `finalize_segment` operations started from
`CmafSegmenter.new` — provided the segment file's byte count stays below the
`u64` saturation bound, at which the code's `saturating_add` byte counters
would stop — the recorded `PartInfo` byte ranges tile the segment file's
bytes `[0, file_length)` with no gaps and no overlaps: part 0 has
`byte_start = 0`, each part's `byte_start + byte_length` equals the next
part's `byte_start`, and the last part ends at the total number of bytes
written to the segment file. -/
theorem cmaf_parts_tile (td : Q) (w : Nat) (pd : Option Q)
    (ops : List CmafOp) (seg : SegmentInfo) (flen : Nat)
    (hmem : (seg, flen) ∈ ((CmafSegmenter.new td w pd).runOps ops).2)
    (hflen : flen < U64MOD) :
    partsTile seg.parts flen = true := by
  have hinit : SegInv (CmafSegmenter.new td w pd) := by
    intro cur hc
    simp [CmafSegmenter.new] at hc
  exact (runOps_inv ops _ hinit).2 (seg, flen) hmem hflen

/-- A concrete operation sequence: push one IDR access unit at PTS 0, then
finalize. -/
def wCmafOps : List CmafOp :=
  [CmafOp.push ⟨[[0x65]], 0, true⟩ 0, CmafOp.fin]

/-- The segment produced by `wCmafOps` from `CmafSegmenter.new ⟨2, 1⟩ 4
none`: a single 149-byte part starting at byte 0. -/
def wCmafSeg : SegmentInfo :=
  ⟨0, ⟨1, 10⟩, "seg000000.m4s",
    [⟨0, ⟨180000, 90000⟩, 0, 149, true⟩]⟩

set_option maxRecDepth 40000 in
/-- Witness for `cmaf_parts_tile` on the concrete run `wCmafOps`. -/
theorem cmaf_parts_tile_witness :
    ((wCmafSeg, 149) ∈
        ((CmafSegmenter.new ⟨2, 1⟩ 4 none).runOps wCmafOps).2 ∧
      149 < U64MOD) ∧
    partsTile wCmafSeg.parts 149 = true :=
  ⟨⟨by decide, by decide⟩,
    cmaf_parts_tile ⟨2, 1⟩ 4 none wCmafOps wCmafSeg 149 (by decide)
      (by decide)⟩

end BambuLan
